import Mathlib

/-!
Verification development for the jab dependency-injection harness
(src/jab/harness.py and src/jab/search.py).

The Python code is shallowly embedded: Python dicts become association
lists that preserve insertion order (as Python 3.7+ dicts do), Python
exceptions become explicit error values, and every stateful method of
the `Harness` class becomes a function from the harness record to a pair
of the harness record after the call together with the exception the
call raised (if any).  Returning the mutated record alongside the raised
exception is essential: Python leaves all mutations performed before a
`raise` in place, and several claims are precisely about that state.

The modeled universe of Python values is the fragment the claims and the
code exercise: classes are records of module, name, constructor
annotations, class attributes and lifecycle hooks; method-annotation
types are concrete class references or flat unions of class references
(Python normalizes `Union` by flattening and deduplicating, so a flat
union of concrete members is the general form in this fragment).
Protocol classes never appear as method parameter or return types in
this universe, which is noted where the source branches on that case.

The third-party `toposort` library used by `Harness._build_env` is not
part of the repository; it is embedded from its well-known
implementation: discard self-dependencies, add dependency-only items
with no dependencies, then Kahn-style repeatedly emit the sorted set of
items with no remaining dependencies, and raise `CircularDependencyError`
when items remain but none can be emitted.

The repository's `jab/exceptions.py` is not under src/; its error
classes are plain exception types with no behavior (the spec's error
taxonomy), modelled from the spec as the constructors of `JabErr`.
-/

namespace Jab

/-- A Python type expression as it appears in a method annotation:
either a reference to a concrete class (identified, as Python type
identity is for our purposes, by originating module and name) or a
`Union[...]` of concrete class references.  Python flattens and
deduplicates nested unions, so a flat list of member references is the
normal form. -/
inductive PTy where
  | con (module name : String)
  | union (args : List (String × String))
deriving DecidableEq, Repr

/-- Python `==` on type objects: two classes are equal when they are the
same class (same module and name here); two `Union`s are equal when they
have the same member sets (Python compares unions as frozensets, so
order is irrelevant); a class never equals a union. -/
def tyEq : PTy → PTy → Bool
  | .con m n, .con m' n' => m = m' && n = n'
  | .union as, .union bs => as.all (fun a => bs.contains a) && bs.all (fun b => as.contains b)
  | _, _ => false

/-- Python `proto_type in impl_type.__args__` (membership in a union's
member list, src/jab/search.py line 82).  A union is never a member of a
flattened union's argument list, which holds only classes. -/
def tyMem (t : PTy) (args : List (String × String)) : Bool :=
  match t with
  | .con m n => args.contains (m, n)
  | .union _ => false

/-- A value sitting in a class or protocol attribute as seen by
`getattr`/annotation fallback in `isimplementation`
(src/jab/harness.py lines 310-316): a function carrying its
`__annotations__` (an ordered mapping from parameter name to type, the
designated key being the string consisting of r, e, t, u, r, n), a type
object (the annotation-fallback case), or an opaque plain value
identified by a tag. -/
inductive PyObj where
  | func (sig : List (String × PTy))
  | tyRef (t : PTy)
  | val (tag : String)
deriving DecidableEq, Repr

/-- Python `!=` between attribute values as used at
src/jab/harness.py line 334, negated: type objects compare by `tyEq`,
opaque values by tag, functions by identity (structural equality of the
signature stands in for identity in this universe; the source only
reaches this comparison when the protocol side is not a function). -/
def objEq : PyObj → PyObj → Bool
  | .func a, .func b => a == b
  | .tyRef a, .tyRef b => tyEq a b
  | .val a, .val b => a == b
  | _, _ => false

/-- A Protocol definition as `isimplementation` introspects it:
its direct attributes (`getattr`), its `__annotations__` mapping with a
flag for `hasattr(proto, ...)` on it, and the result of
`_get_protocol_attrs` (the protocol's declared member names, a library
introspection embedded as an explicit field). -/
structure ProtoDef where
  name : String
  attrs : List (String × PyObj)
  ann : List (String × PTy)
  hasAnn : Bool
  protoAttrs : List String
deriving DecidableEq, Repr

/-- A constructor-parameter annotation as `_build_graph` branches on it
(src/jab/harness.py line 69, `issubclass(dep, Protocol)`): either a
concrete class reference or a Protocol class.  Other annotations (e.g. a
union) would make that `issubclass` call raise and are outside the
modeled universe. -/
inductive DepTy where
  | con (module name : String)
  | proto (p : ProtoDef)
deriving DecidableEq, Repr

/-- A lifecycle hook method is either a coroutine function
(`iscoroutinefunction` true) or a plain synchronous function. -/
inductive Hook where
  | async
  | sync
deriving DecidableEq, Repr

/-- A Python class as the harness consumes it: module and name
(`__module__`, `__name__`), the constructor's `__init__.__annotations__`
as an ordered mapping (possibly containing the return entry), the class
attributes and class-level `__annotations__` used by protocol matching,
and the three optional lifecycle hook methods (hook attributes are
modeled as dedicated fields; the claims never match a protocol against
a hook name). -/
structure PyClass where
  module : String
  name : String
  initAnn : List (String × DepTy)
  attrs : List (String × PyObj)
  clsAnn : List (String × PTy)
  hasAnn : Bool
  onStart : Option Hook
  run : Option Hook
  onStop : Option Hook
deriving DecidableEq, Repr

/-- A constructed component instance: the class it was constructed from
together with the keyword arguments it was constructed with
(`self._provided[x](**provided)`, src/jab/harness.py line 113).
Instances are otherwise opaque; their lifecycle hook surface is the
class's. -/
inductive Obj where
  | inst (cls : PyClass) (kwargs : List (String × Obj))

/-- An argument to `Harness.provide`: a class definition, or any other
value (`isclass` false), identified by its repr string. -/
inductive PyArg where
  | cls (c : PyClass)
  | nonClass (rep : String)

/-- The exceptions the embedded code can raise.  `noConstructor`,
`noAnno` (standing for its NoAnnotation), `missingDependency` and
`invalidLifecycleMethod` model
the classes of the repository's `jab/exceptions.py` (not under src/;
modelled from the spec's error taxonomy, they carry no behavior).
`circularDependency` models `toposort.CircularDependencyError` and
`keyError` models Python's built-in `KeyError` raised by a failed dict
lookup. -/
inductive JabErr where
  | noConstructor (rep : String)
  | noAnno (name : String)
  | missingDependency (name param : String)
  | circularDependency
  | invalidLifecycleMethod (name : String)
  | keyError
deriving DecidableEq, Repr

/-- Errors of the standalone matcher in src/jab/search.py:
`ReturnedUnionType` (line 7) and the `TypeError` that
`issubclass(proto_signature.get(...), Protocol)` raises at line 65 when
the protocol method carries no return annotation (so `.get` yields
`None`, which is not a class) or a union return annotation. -/
inductive SearchErr where
  | returnedUnionType
  | typeError
deriving DecidableEq, Repr

/- ## Association lists: ordered Python dicts -/

/-- Membership test on a list of strings. -/
def memStr (x : String) : List String → Bool
  | [] => false
  | y :: t => if x = y then true else memStr x t

/-- Python `d[k]` / `d.get(k)`: first entry with the given key. -/
def lookupD {α : Type} : List (String × α) → String → Option α
  | [], _ => none
  | p :: t, k => if p.1 = k then some p.2 else lookupD t k

/-- Python `k in d`. -/
def hasKey {α : Type} (m : List (String × α)) (k : String) : Bool :=
  (lookupD m k).isSome

/-- Python `d[k] = v`: overwriting an existing key keeps its original
position (Python 3.7+ dict semantics); a new key is appended. -/
def dictInsert {α : Type} (m : List (String × α)) (k : String) (v : α) : List (String × α) :=
  if hasKey m k then m.map (fun p => if p.1 = k then (k, v) else p)
  else m ++ [(k, v)]

/-- The key sequence of a dict. -/
def keysOf {α : Type} (m : List (String × α)) : List String :=
  m.map (fun p => p.1)

/-- Python `==` on two annotation dicts (`proto_signature != cls_signature`,
src/jab/harness.py line 329): equal when they have the same keys and
equal values at every key, independent of insertion order. -/
def dictEq (xs ys : List (String × PTy)) : Bool :=
  xs.all (fun p => match lookupD ys p.1 with
    | some t => tyEq p.2 t
    | none => false)
  && ys.all (fun p => match lookupD xs p.1 with
    | some t => tyEq p.2 t
    | none => false)

/- ## The toposort library (third-party dependency of _build_env) -/

/-- Insertion of a string into an ascending list; `sortStr` below models
the `sorted(...)` call in `toposort_flatten` (the library sorts each
emitted level to make the flattened order deterministic). -/
def insertStr (a : String) : List String → List String
  | [] => [a]
  | b :: t => if a ≤ b then a :: b :: t else b :: insertStr a t

/-- Insertion sort on strings, the model of Python `sorted`. -/
def sortStr (l : List String) : List String :=
  l.foldr insertStr []

/-- The items whose dependency set is exhausted: the nodes `toposort`
emits in one round. -/
def readyKeys (g : List (String × List String)) : List String :=
  (g.filter (fun p => p.2.isEmpty)).map (fun p => p.1)

/-- One round of the `toposort` loop: drop the emitted items and remove
them from every remaining dependency set. -/
def removeReady (g : List (String × List String)) (r : List String) : List (String × List String) :=
  (g.filter (fun p => !(memStr p.1 r))).map (fun p => (p.1, p.2.filter (fun d => !(memStr d r))))

/-- The `while True` loop of `toposort`, flattened as `toposort_flatten`
does (each emitted level sorted ascending).  The loop consumes at least
one item per round, so its recursion is bounded by the item count; the
explicit bound keeps the function structurally recursive (the zero-fuel
branch with items remaining is unreachable when the bound is at least
the item count, and reports the same cycle error). -/
def kahnFuel : Nat → List (String × List String) → Except JabErr (List String)
  | 0, g => if g.isEmpty then .ok [] else .error .circularDependency
  | fuel + 1, g =>
    if g.isEmpty then .ok []
    else
      let r := readyKeys g
      if r.isEmpty then .error .circularDependency
      else
        match kahnFuel fuel (removeReady g r) with
        | .error e => .error e
        | .ok rest => .ok (sortStr r ++ rest)

/-- The preprocessing of `toposort(data)`: discard self-dependencies
(`v.discard(k)`), then add the items that appear only as dependencies,
with no dependencies of their own. -/
def toposortPrep (data : List (String × List String)) : List (String × List String) :=
  let d1 := data.map (fun p => (p.1, p.2.filter (fun x => x != p.1)))
  let ks := keysOf d1
  let extras := ((d1.map (fun p => p.2)).flatten.filter (fun x => !(memStr x ks))).dedup
  d1 ++ extras.map (fun x => (x, ([] : List String)))

/-- Model of `toposort.toposort_flatten(data)`: preprocess, run the Kahn-style
loop, and raise `CircularDependencyError` when items remain that can
never be emitted. -/
def toposortFlatten (data : List (String × List String)) : Except JabErr (List String) :=
  kahnFuel (toposortPrep data).length (toposortPrep data)

/- ## The interface matcher used by the Harness (src/jab/harness.py lines 282-337) -/

/-- The body of the attribute loop of `isimplementation`
(src/jab/harness.py lines 310-335), one recursive step per protocol
attribute.  `getattr` on protocol and candidate happens inside one
`try`: when either direct attribute is missing, both sides fall back to
the annotation dicts.  A missing candidate value rejects; a protocol
function attribute demands a candidate function whose annotation dict is
equal (a candidate that is not a function lacks a matching
`__annotations__` and is rejected, the `AttributeError` branch at line
327); any other protocol value is compared with Python equality. -/
def implLoop (cls_ : PyClass) (proto : ProtoDef) (pAnn cAnn : List (String × PTy)) :
    List String → Bool
  | [] => true
  | attr :: rest =>
    let pair : Option PyObj × Option PyObj :=
      match lookupD proto.attrs attr, lookupD cls_.attrs attr with
      | some p, some c => (some p, some c)
      | _, _ => ((lookupD pAnn attr).map PyObj.tyRef, (lookupD cAnn attr).map PyObj.tyRef)
    match pair with
    | (_, none) => false
    | (some (.func psig), some c) =>
      match c with
      | .func csig => dictEq psig csig && implLoop cls_ proto pAnn cAnn rest
      | _ => false
    | (none, some _) => false
    | (some (.tyRef t), some c) => objEq c (.tyRef t) && implLoop cls_ proto pAnn cAnn rest
    | (some (.val v), some c) => objEq c (.val v) && implLoop cls_ proto pAnn cAnn rest

/-- Model of `isimplementation(cls_, proto)` of src/jab/harness.py (line 282):
the structural matcher the Harness itself uses.  When the protocol has
an `__annotations__` attribute and the candidate does not, the match
fails immediately; the annotation dicts (empty when the protocol has
none) feed the fallback in the attribute loop. -/
def isimplementation (cls_ : PyClass) (proto : ProtoDef) : Bool :=
  if proto.hasAnn && !cls_.hasAnn then false
  else
    let pAnn := if proto.hasAnn then proto.ann else []
    let cAnn := if proto.hasAnn then cls_.clsAnn else []
    implLoop cls_ proto pAnn cAnn proto.protoAttrs

/- ## The Harness (src/jab/harness.py) -/

/-- The mutable state of a `Harness` instance: `_provided` (the
Registry), `_dep_graph` (component name to parameter-name-to-dependency
mapping), `_env` (the Environment) and `_exec_order`. -/
structure Harness where
  provided : List (String × PyClass)
  depGraph : List (String × List (String × String))
  env : List (String × Obj)
  execOrder : List String

/-- Model of `Harness.__init__`: all four containers start empty. -/
def Harness.new : Harness :=
  { provided := [], depGraph := [], env := [], execOrder := [] }

/-- Model of `Harness._search_concrete` (line 136): scan the registry in
insertion order for an entry whose class has the dependency's module
and name; return its key. -/
def searchConcrete (provided : List (String × PyClass)) (dmod dname : String) : Option String :=
  match provided with
  | [] => none
  | (n, obj) :: rest =>
    if obj.module = dmod ∧ obj.name = dname then some n
    else searchConcrete rest dmod dname

/-- Model of `Harness._search_protocol` (line 115): scan the registry in
insertion order for the first class `isimplementation` accepts; return
its key. -/
def searchProtocol (provided : List (String × PyClass)) (p : ProtoDef) : Option String :=
  match provided with
  | [] => none
  | (n, obj) :: rest =>
    if isimplementation obj p then some n
    else searchProtocol rest p

/-- Model of `Harness._check_provide` (line 157): a non-class argument raises
`NoConstructor`; a class whose `__init__.__annotations__` dict is empty
raises `NoAnnotation` (the `AttributeError` fallback at line 190 raises
the same `NoAnnotation` and is folded into the empty case).  Note the
check counts every annotation, the return annotation included. -/
def checkProvide : PyArg → Option JabErr
  | .nonClass r => some (.noConstructor r)
  | .cls c => if c.initAnn.isEmpty then some (.noAnno c.name) else none

/-- The parameter loop of `Harness._build_graph` (lines 65-86) for one
component: skip the return entry, resolve a Protocol-annotated
parameter through `_search_protocol` and any other through
`_search_concrete`, raising `MissingDependency` on the first parameter
with no match. -/
def resolveParams (provided : List (String × PyClass)) (name : String) :
    List (String × DepTy) → Except JabErr (List (String × String))
  | [] => .ok []
  | (key, dep) :: rest =>
    if key = "return" then resolveParams provided name rest
    else
      let m := match dep with
        | .proto p => searchProtocol provided p
        | .con dmod dname => searchConcrete provided dmod dname
      match m with
      | none => .error (.missingDependency name key)
      | some d =>
        match resolveParams provided name rest with
        | .error e => .error e
        | .ok tail => .ok ((key, d) :: tail)

/-- The outer loop of `Harness._build_graph` (line 61): for each
registry entry in insertion order, resolve its parameters and store the
result under `self._dep_graph[name]`; a raise leaves the entries stored
so far in place. -/
def buildGraphLoop (provided : List (String × PyClass))
    (dg : List (String × List (String × String))) :
    List (String × PyClass) → List (String × List (String × String)) × Option JabErr
  | [] => (dg, none)
  | (name, obj) :: rest =>
    match resolveParams provided name obj.initAnn with
    | .error e => (dg, some e)
    | .ok concrete => buildGraphLoop provided (dictInsert dg name concrete) rest

/-- Model of `{k: self._env[v] for k, v in reqs.items()}` (line 112): gather the
already-built dependency instances; a missing name raises `KeyError`. -/
def buildKwargs (env : List (String × Obj)) :
    List (String × String) → Option (List (String × Obj))
  | [] => some []
  | (k, v) :: rest =>
    match lookupD env v with
    | none => none
    | some o =>
      match buildKwargs env rest with
      | none => none
      | some tail => some ((k, o) :: tail)

/-- The construction loop of `Harness._build_env` (lines 110-113):
strictly in execution order, gather dependency instances and store the
constructed instance under `self._env[x]`; a raise (`KeyError` from any
of the three dict lookups) leaves the instances stored so far in
place. -/
def instantiate (h : Harness) : List String → Harness × Option JabErr
  | [] => (h, none)
  | x :: rest =>
    match lookupD h.depGraph x with
    | none => (h, some .keyError)
    | some reqs =>
      match buildKwargs h.env reqs with
      | none => (h, some .keyError)
      | some kwargs =>
        match lookupD h.provided x with
        | none => (h, some .keyError)
        | some cls => instantiate { h with env := dictInsert h.env x (Obj.inst cls kwargs) } rest

/-- The dependency sets handed to toposort (lines 103-106):
`deps[k] = {i for _, i in v.items()}`, the type information stripped. -/
def stripGraph (dg : List (String × List (String × String))) : List (String × List String) :=
  dg.map (fun p => (p.1, p.2.map (fun kv => kv.2)))

/-- Model of `Harness._build_env` (line 91): topologically sort the stripped
dependency graph (a cycle raises `CircularDependencyError`, leaving
`_exec_order` and `_env` untouched), record the execution order, then
construct every component in that order. -/
def buildEnv (h : Harness) : Harness × Option JabErr :=
  match toposortFlatten (stripGraph h.depGraph) with
  | .error e => (h, some e)
  | .ok order => instantiate { h with execOrder := order } order

/-- Model of `Harness._build_graph` followed by its tail call to `_build_env`. -/
def buildGraph (h : Harness) : Harness × Option JabErr :=
  match buildGraphLoop h.provided h.depGraph h.provided with
  | (dg, some e) => ({ h with depGraph := dg }, some e)
  | (dg, none) => buildEnv { h with depGraph := dg }

/-- The argument loop of `Harness.provide` (line 43) followed by the
rebuild: validate each argument, insert it under `arg.__name__`, and
once all arguments are processed call `_build_graph`.  A raise from
`_check_provide` leaves the arguments already inserted in the
registry. -/
def provideLoop (h : Harness) : List PyArg → Harness × Option JabErr
  | [] => buildGraph h
  | a :: rest =>
    match checkProvide a with
    | some e => (h, some e)
    | none =>
      match a with
      | .cls c => provideLoop { h with provided := dictInsert h.provided c.name c } rest
      | .nonClass r => (h, some (.noConstructor r))

/-- Model of `Harness.provide(*args)`. -/
def provide (h : Harness) (args : List PyArg) : Harness × Option JabErr :=
  provideLoop h args

/-- Model of `Harness().provide(*args)`: a build from scratch. -/
def provideFresh (args : List PyArg) : Harness × Option JabErr :=
  provide Harness.new args

/-- The registry produced by the argument loop when every argument
passes validation. -/
def regAfter (m : List (String × PyClass)) (args : List PyArg) : List (String × PyClass) :=
  args.foldl (fun m a =>
    match a with
    | .cls c => dictInsert m c.name c
    | .nonClass _ => m) m

/- ## The lifecycle orchestrator (src/jab/harness.py lines 199-279) -/

/-- Observable lifecycle events: a start or run hook scheduled into the
respective `gather`, and a stop hook invoked and awaited to completion
(the stop loop awaits each hook before touching the next, so the event
sequence is the serial invocation order). -/
inductive Event where
  | startScheduled (name : String)
  | runScheduled (name : String)
  | stopCalled (name : String)
deriving DecidableEq, Repr

/-- The outcome of awaiting a phase's `gather` barrier: normal
completion, `KeyboardInterrupt`, or any other unhandled exception.  The
outcome depends on the hooks' runtime behavior and is a parameter of
the model. -/
inductive WaitOutcome where
  | ok
  | keyboardInterrupt
  | exception
deriving DecidableEq, Repr

/-- How a lifecycle method ends: an exception propagates out of it, or
it returns its interrupt flag (`_on_start` returns `True` exactly when
the barrier was interrupted or failed; `_run` always returns). -/
inductive PhaseExit where
  | raised (e : JabErr)
  | returned (interrupt : Bool)
deriving DecidableEq, Repr

/-- The collection loop of `Harness._on_start` (lines 205-214): for each
component in execution order, a missing `on_start` attribute is skipped
(`AttributeError` caught), a non-coroutine hook raises
`InvalidLifecycleMethod` (not an `AttributeError`, hence it propagates),
and a coroutine hook is scheduled.  `self._env[x]` raises `KeyError`
when the name is missing; that too propagates. -/
def collectStart (env : List (String × Obj)) : List String → List Event × Option JabErr
  | [] => ([], none)
  | x :: rest =>
    match lookupD env x with
    | none => ([], some .keyError)
    | some (Obj.inst cls _) =>
      match cls.onStart with
      | none => collectStart env rest
      | some .sync => ([], some (.invalidLifecycleMethod x))
      | some .async =>
        match collectStart env rest with
        | (tr, e) => (.startScheduled x :: tr, e)

/-- The collection loop of `Harness._run` (lines 250-259), identical in
shape to the start collection. -/
def collectRun (env : List (String × Obj)) : List String → List Event × Option JabErr
  | [] => ([], none)
  | x :: rest =>
    match lookupD env x with
    | none => ([], some .keyError)
    | some (Obj.inst cls _) =>
      match cls.run with
      | none => collectRun env rest
      | some .sync => ([], some (.invalidLifecycleMethod x))
      | some .async =>
        match collectRun env rest with
        | (tr, e) => (.runScheduled x :: tr, e)

/-- Model of `Harness._on_start` (line 199): collect (a raise there propagates),
then await the barrier; `KeyboardInterrupt` and any other exception are
caught and make the method return `True`, normal completion returns
`False`. -/
def onStartMeth (env : List (String × Obj)) (order : List String) (outcome : WaitOutcome) :
    List Event × PhaseExit :=
  match collectStart env order with
  | (tr, some e) => (tr, .raised e)
  | (tr, none) =>
    match outcome with
    | .ok => (tr, .returned false)
    | .keyboardInterrupt => (tr, .returned true)
    | .exception => (tr, .returned true)

/-- Model of `Harness._run` (line 244): collect (a raise propagates), then await
the barrier; both `KeyboardInterrupt` and any other exception are caught
and the method returns normally whatever the outcome. -/
def runMeth (env : List (String × Obj)) (order : List String) (outcome : WaitOutcome) :
    List Event × PhaseExit :=
  match collectRun env order with
  | (tr, some e) => (tr, .raised e)
  | (tr, none) =>
    match outcome with
    | _ => (tr, .returned false)

/-- The body of `Harness._on_stop` (lines 234-242) over an already
reversed order: a missing `on_stop` attribute is skipped, any present
hook (coroutine or plain) is invoked and awaited to completion before
the next component is touched; `self._env[x]` raises `KeyError` when
the name is missing.  Hook bodies are modeled as completing normally. -/
def onStopLoop (env : List (String × Obj)) : List String → List Event × Option JabErr
  | [] => ([], none)
  | x :: rest =>
    match lookupD env x with
    | none => ([], some .keyError)
    | some (Obj.inst cls _) =>
      match cls.onStop with
      | none => onStopLoop env rest
      | some _ =>
        match onStopLoop env rest with
        | (tr, e) => (.stopCalled x :: tr, e)

/-- Model of `Harness._on_stop` (line 229): the stop loop over
`self._exec_order[::-1]`. -/
def onStopMeth (env : List (String × Obj)) (order : List String) : List Event × Option JabErr :=
  onStopLoop env order.reverse

/-- Model of `Harness.run` (line 269): `interrupt = self._on_start()`; when the
start phase did not set the interrupt flag, `self._run()`; finally
`self._on_stop()`.  There is no `try`/`finally`: an exception raised by
`_on_start` or `_run` (as opposed to one caught at their barriers)
propagates out of `run` and `_on_stop` is never reached. -/
def runHarness (h : Harness) (startOutcome runOutcome : WaitOutcome) :
    List Event × Option JabErr :=
  match onStartMeth h.env h.execOrder startOutcome with
  | (tr, .raised e) => (tr, some e)
  | (tr, .returned interrupt) =>
    if interrupt then
      match onStopMeth h.env h.execOrder with
      | (tr2, e2) => (tr ++ tr2, e2)
    else
      match runMeth h.env h.execOrder runOutcome with
      | (trR, .raised e) => (tr ++ trR, some e)
      | (trR, .returned _) =>
        match onStopMeth h.env h.execOrder with
        | (tr2, e2) => (tr ++ trR ++ tr2, e2)

/-- Whether an event is a stop-hook invocation. -/
def Event.isStop : Event → Bool
  | .stopCalled _ => true
  | _ => false

/-- Whether an event is a run-hook scheduling. -/
def Event.isRun : Event → Bool
  | .runScheduled _ => true
  | _ => false

/-- Whether the instance stored under a name declares a stop hook. -/
def hasStopHook (env : List (String × Obj)) (x : String) : Bool :=
  match lookupD env x with
  | some (Obj.inst cls _) => cls.onStop.isSome
  | none => false

/- ## The standalone matcher of src/jab/search.py -/

/-- The parameter loop of `func_satisfies` (src/jab/search.py lines
71-97): for each protocol-signature entry, a missing implementation
entry rejects (`KeyError` caught at line 74); an implementation `Union`
rejects when the protocol's type is not among its members, raises
`ReturnedUnionType` when it is and the entry is the return entry, and is
accepted otherwise; a non-union implementation type (no `__origin__`,
the `AttributeError` caught at line 93) must be equal to the protocol's
type. -/
def fsLoop (impl : List (String × PTy)) : List (String × PTy) → Except SearchErr Bool
  | [] => .ok true
  | (param, protoTy) :: rest =>
    match lookupD impl param with
    | none => .ok false
    | some implTy =>
      match implTy with
      | .union args =>
        if tyMem protoTy args then
          if param = "return" then .error .returnedUnionType
          else fsLoop impl rest
        else .ok false
      | .con m n =>
        if tyEq protoTy (.con m n) then fsLoop impl rest else .ok false

/-- Model of `func_satisfies(impl, proto)` (src/jab/search.py line 57) over the
two functions' annotation dicts.  Line 65 first evaluates
`issubclass(proto_signature.get(...), Protocol)` on the return entry:
in the modeled universe no method type is a Protocol class, so on a
concrete class the test is false and the protocol-return rewriting of
lines 66-69 never fires; with no return entry `.get` yields `None` and
with a union return the argument is not a class — both make
`issubclass` raise `TypeError`. -/
def func_satisfies (impl proto : List (String × PTy)) : Except SearchErr Bool :=
  match lookupD proto "return" with
  | some (.con _ _) => fsLoop impl proto
  | _ => .error .typeError

/-- Position of the first occurrence of a string in a list (the length
of the list when absent); used to state ordering properties of the
execution order. -/
def idxOf (a : String) : List String → Nat
  | [] => 0
  | b :: t => if a = b then 0 else idxOf a t + 1

/- ## Concrete scenario data for witnesses and counterexamples -/

/-- A class with the given identity and constructor annotations and no
other features: no class attributes or annotations, no lifecycle
hooks. -/
def baseClass (module name : String) (initAnn : List (String × DepTy)) : PyClass :=
  { module := module, name := name, initAnn := initAnn, attrs := [], clsAnn := [],
    hasAnn := false, onStart := none, run := none, onStop := none }

/-- Scenario C1: two classes whose constructors require each other. -/
def clsCycA : PyClass :=
  baseClass ("app") ("CycA") [(("b"), DepTy.con ("app") ("CycB"))]

/-- Scenario C1: second half of the two-cycle. -/
def clsCycB : PyClass :=
  baseClass ("app") ("CycB") [(("a"), DepTy.con ("app") ("CycA"))]

/-- Scenario C1: the cyclic argument list. -/
def args1w : List PyArg := [PyArg.cls clsCycA, PyArg.cls clsCycB]

/-- Scenario C1: the dependency graph the resolution step produces for
the two-cycle. -/
def dg1w : List (String × List (String × String)) :=
  [(("CycA"), [(("b"), ("CycB"))]), (("CycB"), [(("a"), ("CycA"))])]

/-- Scenario C1 counterexample: a class whose constructor requires the
class itself. -/
def clsSelf : PyClass :=
  baseClass ("app") ("Selfish") [(("me"), DepTy.con ("app") ("Selfish"))]

/-- Scenario C1 counterexample: the state after providing the
self-dependent class: the self-edge is in the dependency graph, the
order was computed (the sorter discarded the self-edge), and the
environment is untouched. -/
def hSelf : Harness :=
  { provided := [(("Selfish"), clsSelf)],
    depGraph := [(("Selfish"), [(("me"), ("Selfish"))])],
    env := [], execOrder := [("Selfish")] }

/-- Scenario C3: a class whose only constructor annotation is its
return type; it passes validation. -/
def clsOnlyRet : PyClass :=
  baseClass ("app") ("OnlyRet") [(("return"), DepTy.con ("builtins") ("NoneType"))]

/-- Scenario C4: the dependency-free head of the A-B-C chain. -/
def clsChA : PyClass :=
  baseClass ("app") ("ChA") [(("return"), DepTy.con ("builtins") ("NoneType"))]

/-- Scenario C4: the middle of the chain, requiring the head. -/
def clsChB : PyClass :=
  baseClass ("app") ("ChB") [(("a"), DepTy.con ("app") ("ChA"))]

/-- Scenario C4: the tail of the chain, requiring the middle. -/
def clsChC : PyClass :=
  baseClass ("app") ("ChC") [(("b"), DepTy.con ("app") ("ChB"))]

/-- Scenario C4: the chain argument list. -/
def args4w : List PyArg := [PyArg.cls clsChA, PyArg.cls clsChB, PyArg.cls clsChC]

/-- Scenario C4: the harness state a fresh build of the chain
produces. -/
def h4w : Harness :=
  { provided := [(("ChA"), clsChA), (("ChB"), clsChB), (("ChC"), clsChC)],
    depGraph := [(("ChA"), []), (("ChB"), [(("a"), ("ChA"))]), (("ChC"), [(("b"), ("ChB"))])],
    env := [(("ChA"), Obj.inst clsChA []),
            (("ChB"), Obj.inst clsChB [(("a"), Obj.inst clsChA [])]),
            (("ChC"), Obj.inst clsChC [(("b"), Obj.inst clsChB [(("a"), Obj.inst clsChA [])])])],
    execOrder := [("ChA"), ("ChB"), ("ChC")] }

/-- Scenario C9 counterexample: another self-dependent class. -/
def clsSelf9 : PyClass :=
  baseClass ("lib") ("Loop9") [(("x"), DepTy.con ("lib") ("Loop9"))]

/-- Scenario C9 witness: a dependency-free class. -/
def clsD9 : PyClass :=
  baseClass ("w9") ("DepD") [(("return"), DepTy.con ("builtins") ("NoneType"))]

/-- Scenario C9 witness: a class requiring the dependency-free one. -/
def clsE9 : PyClass :=
  baseClass ("w9") ("UserE") [(("d"), DepTy.con ("w9") ("DepD"))]

/-- Scenario C9 witness: the argument list. -/
def args9w : List PyArg := [PyArg.cls clsD9, PyArg.cls clsE9]

/-- Scenario C9 witness: the harness state the fresh build produces. -/
def h9w : Harness :=
  { provided := [(("DepD"), clsD9), (("UserE"), clsE9)],
    depGraph := [(("DepD"), []), (("UserE"), [(("d"), ("DepD"))])],
    env := [(("DepD"), Obj.inst clsD9 []),
            (("UserE"), Obj.inst clsE9 [(("d"), Obj.inst clsD9 [])])],
    execOrder := [("DepD"), ("UserE")] }

/-- Scenario C7: a protocol requiring one method. -/
def protoW : ProtoDef :=
  { name := ("Speaker"),
    attrs := [(("speak"), PyObj.func [(("x"), PTy.con ("builtins") ("int")),
                                      (("return"), PTy.con ("builtins") ("str"))])],
    ann := [], hasAnn := false, protoAttrs := [("speak")] }

/-- Scenario C7: a first satisfying candidate. -/
def clsY7 : PyClass :=
  { baseClass ("app") ("Yel") [(("return"), DepTy.con ("builtins") ("NoneType"))] with
    attrs := [(("speak"), PyObj.func [(("x"), PTy.con ("builtins") ("int")),
                                      (("return"), PTy.con ("builtins") ("str"))])] }

/-- Scenario C7: a second satisfying candidate, registered later. -/
def clsZ7 : PyClass :=
  { baseClass ("app") ("Zed") [(("return"), DepTy.con ("builtins") ("NoneType"))] with
    attrs := [(("speak"), PyObj.func [(("x"), PTy.con ("builtins") ("int")),
                                      (("return"), PTy.con ("builtins") ("str"))])] }

/-- Scenario C7: the registry with both candidates, first one first. -/
def provided7 : List (String × PyClass) := [(("Yel"), clsY7), (("Zed"), clsZ7)]

/-- Scenario C10: first of two classes sharing a bare name. -/
def clsDup1 : PyClass :=
  baseClass ("mod1") ("Dup") [(("return"), DepTy.con ("builtins") ("NoneType"))]

/-- Scenario C10: second class with the same bare name, different
module. -/
def clsDup2 : PyClass :=
  baseClass ("mod2") ("Dup") [(("return"), DepTy.con ("builtins") ("NoneType"))]

/-- Scenario C2 counterexample: a component whose start hook is a plain
synchronous method and which also declares a stop hook. -/
def clsLC2 : PyClass :=
  { baseClass ("app") ("SyncStart") [(("return"), DepTy.con ("builtins") ("NoneType"))] with
    onStart := some Hook.sync, onStop := some Hook.async }

/-- Scenario C2 counterexample: a built harness holding that
component. -/
def hC2 : Harness :=
  { provided := [(("SyncStart"), clsLC2)],
    depGraph := [(("SyncStart"), [])],
    env := [(("SyncStart"), Obj.inst clsLC2 [])],
    execOrder := [("SyncStart")] }

/-- Scenario C2 witness: a component with well-formed hooks. -/
def clsW2 : PyClass :=
  { baseClass ("app") ("Good2") [(("return"), DepTy.con ("builtins") ("NoneType"))] with
    onStart := some Hook.async, run := some Hook.async, onStop := some Hook.sync }

/-- Scenario C2 witness: a built harness holding that component. -/
def hW2 : Harness :=
  { provided := [(("Good2"), clsW2)],
    depGraph := [(("Good2"), [])],
    env := [(("Good2"), Obj.inst clsW2 [])],
    execOrder := [("Good2")] }

/-- Scenario C5 counterexample: a component declaring only a stop
hook. -/
def clsP5 : PyClass :=
  { baseClass ("app") ("P5") [(("return"), DepTy.con ("builtins") ("NoneType"))] with
    onStop := some Hook.async }

/-- Scenario C5 counterexample: a later component with a synchronous
start hook. -/
def clsQ5 : PyClass :=
  { baseClass ("app") ("Q5") [(("return"), DepTy.con ("builtins") ("NoneType"))] with
    onStart := some Hook.sync }

/-- Scenario C5 counterexample: the built harness with both. -/
def hC5 : Harness :=
  { provided := [(("P5"), clsP5), (("Q5"), clsQ5)],
    depGraph := [(("P5"), []), (("Q5"), [])],
    env := [(("P5"), Obj.inst clsP5 []), (("Q5"), Obj.inst clsQ5 [])],
    execOrder := [("P5"), ("Q5")] }

/-- Scenario C5 witness: first component, stop hook only. -/
def clsV5 : PyClass :=
  { baseClass ("app") ("V5") [(("return"), DepTy.con ("builtins") ("NoneType"))] with
    onStop := some Hook.sync }

/-- Scenario C5 witness: second component, stop hook only. -/
def clsU5 : PyClass :=
  { baseClass ("app") ("U5") [(("return"), DepTy.con ("builtins") ("NoneType"))] with
    onStop := some Hook.async }

/-- Scenario C5 witness: the built harness with both. -/
def hW5 : Harness :=
  { provided := [(("V5"), clsV5), (("U5"), clsU5)],
    depGraph := [(("V5"), []), (("U5"), [])],
    env := [(("V5"), Obj.inst clsV5 []), (("U5"), Obj.inst clsU5 [])],
    execOrder := [("V5"), ("U5")] }

/-- Scenario C6: a protocol requiring a method taking an int and
returning a str. -/
def protoU : ProtoDef :=
  { name := ("Render"),
    attrs := [(("draw"), PyObj.func [(("x"), PTy.con ("builtins") ("int")),
                                     (("return"), PTy.con ("builtins") ("str"))])],
    ann := [], hasAnn := false, protoAttrs := [("draw")] }

/-- Scenario C6: a candidate whose method takes a union containing the
required int. -/
def clsU6 : PyClass :=
  { baseClass ("app") ("Widget") [(("return"), DepTy.con ("builtins") ("NoneType"))] with
    attrs := [(("draw"),
      PyObj.func [(("x"), PTy.union [(("builtins"), ("int")), (("builtins"), ("float"))]),
                  (("return"), PTy.con ("builtins") ("str"))])] }

/-- Scenario C6 witness: an implementation signature with a union
parameter. -/
def implW6 : List (String × PTy) :=
  [(("x"), PTy.union [(("builtins"), ("int")), (("builtins"), ("float"))]),
   (("return"), PTy.con ("builtins") ("str"))]

/-- Scenario C6 witness: an implementation signature with a union
return. -/
def implW6R : List (String × PTy) :=
  [(("return"), PTy.union [(("builtins"), ("int")), (("builtins"), ("str"))])]

/-- Scenario C8: a class with a constructor annotation dict that is
empty. -/
def clsBare : PyClass := baseClass ("app") ("Bare") []

/-- Scenario C3 witness: a valid class registered before the failing
argument. -/
def clsW3 : PyClass :=
  baseClass ("app") ("W3") [(("return"), DepTy.con ("builtins") ("NoneType"))]

/- ## Helper lemmas: lists and ordered dicts -/

theorem memStr_iff (x : String) (l : List String) : memStr x l = true ↔ x ∈ l := by
  induction l with
  | nil => simp [memStr]
  | cons y t ih =>
    by_cases h : x = y
    · subst h; simp [memStr]
    · simp [memStr, h, ih]

theorem isEmpty_true_iff {α : Type} (l : List α) : l.isEmpty = true ↔ l = [] := by
  cases l <;> simp

theorem lookupD_mem {α : Type} {m : List (String × α)} {k : String} {v : α}
    (h : lookupD m k = some v) : (k, v) ∈ m := by
  induction m with
  | nil => simp [lookupD] at h
  | cons p t ih =>
    obtain ⟨k1, v1⟩ := p
    by_cases hk : k1 = k
    · subst hk
      simp [lookupD] at h
      subst h
      exact List.mem_cons_self _ _
    · simp [lookupD, hk] at h
      exact List.mem_cons_of_mem _ (ih h)

theorem mem_keys_of_lookupD {α : Type} {m : List (String × α)} {k : String} {v : α}
    (h : lookupD m k = some v) : k ∈ keysOf m := by
  have := lookupD_mem h
  exact List.mem_map.mpr ⟨(k, v), this, rfl⟩

theorem lookupD_isSome_iff {α : Type} (m : List (String × α)) (k : String) :
    (lookupD m k).isSome = true ↔ k ∈ keysOf m := by
  induction m with
  | nil => simp [lookupD, keysOf]
  | cons p t ih =>
    by_cases hk : p.1 = k
    · subst hk; simp [lookupD, keysOf]
    · simp only [lookupD, hk, if_neg, not_false_iff, keysOf, List.map_cons, List.mem_cons]
      rw [keysOf] at ih
      rw [ih]
      constructor
      · intro h; right; exact h
      · intro h
        rcases h with h | h
        · exact absurd h.symm hk
        · exact h

theorem keyInj {α : Type} {g : List (String × α)} (hn : (keysOf g).Nodup)
    {p q : String × α} (hp : p ∈ g) (hq : q ∈ g) (h : p.1 = q.1) : p = q := by
  induction g with
  | nil => simp at hp
  | cons a t ih =>
    rw [keysOf, List.map_cons, List.nodup_cons] at hn
    rcases List.mem_cons.mp hp with hp1 | hp1 <;> rcases List.mem_cons.mp hq with hq1 | hq1
    · rw [hp1, hq1]
    · exfalso
      apply hn.1
      rw [← hp1, h]
      exact List.mem_map.mpr ⟨q, hq1, rfl⟩
    · exfalso
      apply hn.1
      rw [← hq1, ← h]
      exact List.mem_map.mpr ⟨p, hp1, rfl⟩
    · exact ih hn.2 hp1 hq1

theorem lookupD_of_mem_nodup {α : Type} {m : List (String × α)} (hn : (keysOf m).Nodup)
    {p : String × α} (hp : p ∈ m) : lookupD m p.1 = some p.2 := by
  induction m with
  | nil => simp at hp
  | cons a t ih =>
    rw [keysOf, List.map_cons, List.nodup_cons] at hn
    rcases List.mem_cons.mp hp with hp1 | hp1
    · rw [hp1]
      simp [lookupD]
    · have hne : a.1 ≠ p.1 := by
        intro hcontra
        apply hn.1
        rw [hcontra]
        exact List.mem_map.mpr ⟨p, hp1, rfl⟩
      simp only [lookupD, hne, if_neg, not_false_iff]
      exact ih hn.2 hp1

theorem hasKey_iff {α : Type} (m : List (String × α)) (k : String) :
    hasKey m k = true ↔ k ∈ keysOf m := by
  rw [hasKey]; exact lookupD_isSome_iff m k

theorem dictInsert_of_not_hasKey {α : Type} {m : List (String × α)} {k : String} (v : α)
    (h : ¬ k ∈ keysOf m) : dictInsert m k v = m ++ [(k, v)] := by
  rw [dictInsert, if_neg]
  intro hc
  exact h ((hasKey_iff m k).mp hc)

theorem keysOf_dictInsert_replace {α : Type} {m : List (String × α)} {k : String} (v : α)
    (h : k ∈ keysOf m) : keysOf (dictInsert m k v) = keysOf m := by
  rw [dictInsert, if_pos ((hasKey_iff m k).mpr h), keysOf, keysOf, List.map_map]
  apply List.map_congr_left
  intro p _
  by_cases hk : p.1 = k
  · simp [hk, Function.comp]
  · simp [hk, Function.comp]

theorem keysOf_append {α : Type} (m m' : List (String × α)) :
    keysOf (m ++ m') = keysOf m ++ keysOf m' := by
  rw [keysOf, keysOf, keysOf, List.map_append]

theorem mem_dictInsert {α : Type} {m : List (String × α)} {k : String} {v : α}
    {q : String × α} (hq : q ∈ dictInsert m k v) : q = (k, v) ∨ (q ∈ m ∧ q.1 ≠ k) := by
  rw [dictInsert] at hq
  by_cases h : hasKey m k = true
  · rw [if_pos h] at hq
    rcases List.mem_map.mp hq with ⟨p, hp, hpq⟩
    by_cases hk : p.1 = k
    · rw [if_pos hk] at hpq
      left; exact hpq.symm
    · rw [if_neg hk] at hpq
      right
      rw [← hpq]
      exact ⟨hp, hk⟩
  · rw [if_neg h] at hq
    rcases List.mem_append.mp hq with h1 | h1
    · by_cases hk : q.1 = k
      · exfalso
        apply h
        rw [hasKey_iff]
        rw [← hk]
        exact List.mem_map.mpr ⟨q, h1, rfl⟩
      · right; exact ⟨h1, hk⟩
    · left
      simpa using h1

theorem nodup_append_singleton {α : Type} [DecidableEq α] {l : List α} {a : α}
    (h : l.Nodup) (ha : ¬ a ∈ l) : (l ++ [a]).Nodup := by
  rw [List.nodup_append]
  refine ⟨h, List.nodup_singleton a, ?_⟩
  intro x hx hax
  rcases List.mem_singleton.mp hax with rfl
  exact ha hx

theorem keysOf_dictInsert_nodup {α : Type} {m : List (String × α)} (k : String) (v : α)
    (h : (keysOf m).Nodup) : (keysOf (dictInsert m k v)).Nodup := by
  by_cases hk : k ∈ keysOf m
  · rw [keysOf_dictInsert_replace v hk]; exact h
  · rw [dictInsert_of_not_hasKey v hk, keysOf_append]
    exact nodup_append_singleton h hk

theorem filter_append_perm_self {α : Type} (p : α → Bool) (l : List α) :
    List.Perm (l.filter p ++ l.filter (fun a => !(p a))) l := by
  induction l with
  | nil => simp
  | cons a t ih =>
    by_cases h : p a = true
    · simp only [List.filter_cons, h, Bool.not_true, cond_true, cond_false, List.cons_append]
      exact ih.cons a
    · have h' : p a = false := by simpa using h
      simp only [List.filter_cons, h', Bool.not_false, cond_false, cond_true]
      exact List.Perm.trans List.perm_middle (ih.cons a)

theorem filter_congr_mem {α : Type} {p q : α → Bool} {l : List α}
    (h : ∀ a ∈ l, p a = q a) : l.filter p = l.filter q := by
  induction l with
  | nil => rfl
  | cons a t ih =>
    have ha := h a (List.mem_cons_self a t)
    have ht : ∀ a ∈ t, p a = q a := fun a hat => h a (List.mem_cons_of_mem _ hat)
    simp only [List.filter_cons, ha, ih ht]

theorem length_filter_lt {α : Type} {p : α → Bool} {l : List α} {x : α}
    (hx : x ∈ l) (hpx : p x = false) : (l.filter p).length < l.length := by
  induction l with
  | nil => simp at hx
  | cons a t ih =>
    rcases List.mem_cons.mp hx with rfl | hxt
    · simp only [List.filter_cons, hpx, cond_false, List.length_cons]
      exact Nat.lt_succ_of_le (List.length_filter_le p t)
    · by_cases h : p a = true
      · simp only [List.filter_cons, h, cond_true, List.length_cons]
        exact Nat.succ_lt_succ (ih hxt)
      · have h' : p a = false := by simpa using h
        simp only [List.filter_cons, h', cond_false, List.length_cons]
        exact Nat.lt_succ_of_lt (ih hxt)

theorem idxOf_append_left {a : String} {l1 : List String} (l2 : List String)
    (h : a ∈ l1) : idxOf a (l1 ++ l2) = idxOf a l1 := by
  induction l1 with
  | nil => simp at h
  | cons b t ih =>
    by_cases hab : a = b
    · simp [idxOf, hab]
    · rcases List.mem_cons.mp h with h1 | h1
      · exact absurd h1 hab
      · simp [idxOf, hab, ih h1]

theorem idxOf_append_right {a : String} {l1 : List String} (l2 : List String)
    (h : ¬ a ∈ l1) : idxOf a (l1 ++ l2) = l1.length + idxOf a l2 := by
  induction l1 with
  | nil => simp [idxOf]
  | cons b t ih =>
    have hab : a ≠ b := fun hc => h (hc ▸ List.mem_cons_self b t)
    have ht : ¬ a ∈ t := fun hc => h (List.mem_cons_of_mem _ hc)
    have hih : idxOf a (t ++ l2) = t.length + idxOf a l2 := ih ht
    show (if a = b then 0 else idxOf a (t ++ l2) + 1) = (b :: t).length + idxOf a l2
    rw [if_neg hab, hih, List.length_cons]
    omega

theorem idxOf_lt_length {a : String} {l : List String} (h : a ∈ l) :
    idxOf a l < l.length := by
  induction l with
  | nil => simp at h
  | cons b t ih =>
    by_cases hab : a = b
    · simp [idxOf, hab]
    · rcases List.mem_cons.mp h with h1 | h1
      · exact absurd h1 hab
      · simp only [idxOf, hab, if_neg, not_false_iff, List.length_cons]
        exact Nat.succ_lt_succ (ih h1)

theorem insertStr_perm (a : String) (l : List String) :
    List.Perm (insertStr a l) (a :: l) := by
  induction l with
  | nil => exact List.Perm.refl _
  | cons b t ih =>
    show List.Perm (if a ≤ b then a :: b :: t else b :: insertStr a t) (a :: b :: t)
    by_cases h : a ≤ b
    · rw [if_pos h]
    · rw [if_neg h]
      exact List.Perm.trans (ih.cons b) (List.Perm.swap a b t)

theorem sortStr_perm (l : List String) : List.Perm (sortStr l) l := by
  induction l with
  | nil => exact List.Perm.refl _
  | cons a t ih =>
    show List.Perm (insertStr a (sortStr t)) (a :: t)
    exact List.Perm.trans (insertStr_perm a (sortStr t)) (ih.cons a)

theorem mem_sortStr {a : String} {l : List String} : a ∈ sortStr l ↔ a ∈ l :=
  (sortStr_perm l).mem_iff

/- ## Helper lemmas: the toposort model -/

theorem kahnFuel_succ (fuel : Nat) (g : List (String × List String)) :
    kahnFuel (fuel + 1) g =
      if g.isEmpty then .ok []
      else if (readyKeys g).isEmpty then .error .circularDependency
      else
        match kahnFuel fuel (removeReady g (readyKeys g)) with
        | .error e => .error e
        | .ok rest => .ok (sortStr (readyKeys g) ++ rest) := rfl

theorem mem_readyKeys (g : List (String × List String)) (x : String) :
    x ∈ readyKeys g ↔ ∃ p, (p ∈ g ∧ p.2.isEmpty = true) ∧ p.1 = x := by
  rw [readyKeys]
  simp [List.mem_map, List.mem_filter]

theorem memStr_ready_eq {g : List (String × List String)} (hn : (keysOf g).Nodup)
    {p : String × List String} (hp : p ∈ g) :
    memStr p.1 (readyKeys g) = p.2.isEmpty := by
  cases he : p.2.isEmpty with
  | true =>
    have hmem : p.1 ∈ readyKeys g := (mem_readyKeys g p.1).mpr ⟨p, ⟨hp, he⟩, rfl⟩
    exact (memStr_iff _ _).mpr hmem
  | false =>
    cases hm : memStr p.1 (readyKeys g) with
    | false => rfl
    | true =>
      exfalso
      have hmem := (memStr_iff _ _).mp hm
      obtain ⟨q, ⟨hq, hqe⟩, hq1⟩ := (mem_readyKeys g p.1).mp hmem
      have hpq : q = p := keyInj hn hq hp hq1
      rw [hpq] at hqe
      rw [he] at hqe
      exact Bool.false_ne_true hqe

theorem keysOf_removeReady (g : List (String × List String)) (r : List String) :
    keysOf (removeReady g r) = keysOf (g.filter (fun p => !(memStr p.1 r))) := by
  simp [removeReady, keysOf, List.map_map, Function.comp]

theorem keysOf_filter_sublist {α : Type} (g : List (String × α)) (p : String × α → Bool) :
    List.Sublist (keysOf (g.filter p)) (keysOf g) :=
  List.Sublist.map _ (List.filter_sublist g)

theorem readyKeys_ne_nil_of_not_isEmpty {g : List (String × List String)}
    (h : ¬ (readyKeys g).isEmpty = true) : readyKeys g ≠ [] := by
  intro hc
  rw [hc] at h
  simp at h

theorem removeReady_length_lt {g : List (String × List String)}
    (hne : readyKeys g ≠ []) : (removeReady g (readyKeys g)).length < g.length := by
  have hx : ∃ x, x ∈ readyKeys g := by
    cases hg : readyKeys g with
    | nil => exact absurd hg hne
    | cons a t => exact ⟨a, hg ▸ List.mem_cons_self a t⟩
  obtain ⟨x, hx⟩ := hx
  obtain ⟨q, ⟨hq, _⟩, hq1⟩ := (mem_readyKeys g x).mp hx
  rw [removeReady, List.length_map]
  apply length_filter_lt hq
  have : memStr q.1 (readyKeys g) = true := (memStr_iff _ _).mpr (hq1 ▸ hx)
  rw [this]
  rfl

theorem keys_split_perm {g : List (String × List String)} (hn : (keysOf g).Nodup) :
    List.Perm (keysOf g) (readyKeys g ++ keysOf (removeReady g (readyKeys g))) := by
  have hcongr : g.filter (fun p => !(memStr p.1 (readyKeys g)))
      = g.filter (fun p => !(p.2.isEmpty)) :=
    filter_congr_mem (fun p hp => by rw [memStr_ready_eq hn hp])
  have hmap := (filter_append_perm_self (fun p : String × List String => p.2.isEmpty) g).map
    (fun p : String × List String => p.1)
  rw [List.map_append] at hmap
  rw [keysOf_removeReady, hcongr]
  exact hmap.symm

theorem kahn_perm : ∀ fuel (g : List (String × List String)) (l : List String),
    g.length ≤ fuel → (keysOf g).Nodup → kahnFuel fuel g = .ok l →
    List.Perm l (keysOf g) := by
  intro fuel
  induction fuel with
  | zero =>
    intro g l hlen hn hk
    have hg : g = [] := List.length_eq_zero.mp (Nat.le_zero.mp hlen)
    subst hg
    have hred : kahnFuel 0 ([] : List (String × List String)) = .ok [] := rfl
    rw [hred] at hk
    cases hk
    exact List.Perm.refl _
  | succ fuel ih =>
    intro g l hlen hn hk
    by_cases hg : g.isEmpty = true
    · have hg' : g = [] := (isEmpty_true_iff g).mp hg
      subst hg'
      have hred : kahnFuel (fuel + 1) ([] : List (String × List String)) = .ok [] := rfl
      rw [hred] at hk
      cases hk
      exact List.Perm.refl _
    · rw [kahnFuel_succ, if_neg hg] at hk
      by_cases hr : (readyKeys g).isEmpty = true
      · rw [if_pos hr] at hk
        exact Except.noConfusion hk
      · rw [if_neg hr] at hk
        cases hrec : kahnFuel fuel (removeReady g (readyKeys g)) with
        | error e =>
          rw [hrec] at hk
          exact Except.noConfusion hk
        | ok rest =>
          rw [hrec] at hk
          injection hk with hk'
          subst hk'
          have hlt : (removeReady g (readyKeys g)).length < g.length :=
            removeReady_length_lt (readyKeys_ne_nil_of_not_isEmpty hr)
          have hlen' : (removeReady g (readyKeys g)).length ≤ fuel := by omega
          have hnodup' : (keysOf (removeReady g (readyKeys g))).Nodup := by
            rw [keysOf_removeReady]
            exact (keysOf_filter_sublist g _).nodup hn
          have ihp := ih _ rest hlen' hnodup' hrec
          exact ((sortStr_perm (readyKeys g)).append ihp).trans (keys_split_perm hn).symm

theorem not_mem_of_memStr_false {x : String} {l : List String} (h : memStr x l = false) :
    ¬ x ∈ l := by
  intro hc
  rw [(memStr_iff x l).mpr hc] at h
  exact Bool.noConfusion h

theorem mem_keys_removeReady {g : List (String × List String)} {r : List String} {d : String}
    (hd : d ∈ keysOf g) (hdr : ¬ d ∈ r) : d ∈ keysOf (removeReady g r) := by
  rw [keysOf_removeReady]
  obtain ⟨w, hw, hw1⟩ := List.mem_map.mp hd
  apply List.mem_map.mpr
  refine ⟨w, List.mem_filter.mpr ⟨hw, ?_⟩, hw1⟩
  have hf : memStr w.1 r = false := by
    cases hm : memStr w.1 r with
    | false => rfl
    | true => exact absurd ((memStr_iff _ _).mp hm) (hw1 ▸ hdr)
  rw [hf]
  rfl

theorem kahn_before : ∀ fuel (g : List (String × List String)) (l : List String),
    g.length ≤ fuel → (keysOf g).Nodup →
    (∀ p ∈ g, ∀ d ∈ p.2, d ∈ keysOf g) →
    (∀ p ∈ g, ¬ p.1 ∈ p.2) →
    kahnFuel fuel g = .ok l →
    ∀ p ∈ g, ∀ d ∈ p.2, idxOf d l < idxOf p.1 l := by
  intro fuel
  induction fuel with
  | zero =>
    intro g l hlen _ _ _ _ p hp
    have hg : g = [] := List.length_eq_zero.mp (Nat.le_zero.mp hlen)
    subst hg
    simp at hp
  | succ fuel ih =>
    intro g l hlen hn hclosed hnoself hk p hp d hd
    by_cases hg : g.isEmpty = true
    · rw [(isEmpty_true_iff g).mp hg] at hp
      simp at hp
    · rw [kahnFuel_succ, if_neg hg] at hk
      by_cases hr : (readyKeys g).isEmpty = true
      · rw [if_pos hr] at hk
        exact Except.noConfusion hk
      · rw [if_neg hr] at hk
        cases hrec : kahnFuel fuel (removeReady g (readyKeys g)) with
        | error e =>
          rw [hrec] at hk
          exact Except.noConfusion hk
        | ok rest =>
          rw [hrec] at hk
          injection hk with hk'
          subst hk'
          have hready := memStr_ready_eq hn hp
          cases hpr : memStr p.1 (readyKeys g) with
          | true =>
            exfalso
            rw [hpr] at hready
            have hpe : p.2 = [] := (isEmpty_true_iff p.2).mp hready.symm
            rw [hpe] at hd
            simp at hd
          | false =>
            have hpnotr : ¬ p.1 ∈ readyKeys g := not_mem_of_memStr_false hpr
            have hpnots : ¬ p.1 ∈ sortStr (readyKeys g) := fun hc =>
              hpnotr (mem_sortStr.mp hc)
            have hidxp : idxOf p.1 (sortStr (readyKeys g) ++ rest)
                = (sortStr (readyKeys g)).length + idxOf p.1 rest :=
              idxOf_append_right rest hpnots
            cases hdr : memStr d (readyKeys g) with
            | true =>
              have hdmem : d ∈ sortStr (readyKeys g) :=
                mem_sortStr.mpr ((memStr_iff _ _).mp hdr)
              have hidxd : idxOf d (sortStr (readyKeys g) ++ rest)
                  = idxOf d (sortStr (readyKeys g)) := idxOf_append_left rest hdmem
              rw [hidxd, hidxp]
              exact Nat.lt_of_lt_of_le (idxOf_lt_length hdmem) (Nat.le_add_right _ _)
            | false =>
              have hdnotr : ¬ d ∈ readyKeys g := not_mem_of_memStr_false hdr
              have hdnots : ¬ d ∈ sortStr (readyKeys g) := fun hc =>
                hdnotr (mem_sortStr.mp hc)
              have hidxd : idxOf d (sortStr (readyKeys g) ++ rest)
                  = (sortStr (readyKeys g)).length + idxOf d rest :=
                idxOf_append_right rest hdnots
              -- the surviving entry for p in the reduced graph
              have hpmem' : (p.1, p.2.filter (fun x => !(memStr x (readyKeys g))))
                  ∈ removeReady g (readyKeys g) := by
                apply List.mem_map.mpr
                refine ⟨p, List.mem_filter.mpr ⟨hp, ?_⟩, rfl⟩
                rw [hpr]
                rfl
              have hdmem' : d ∈ p.2.filter (fun x => !(memStr x (readyKeys g))) := by
                apply List.mem_filter.mpr
                refine ⟨hd, ?_⟩
                rw [hdr]
                rfl
              have hlt : (removeReady g (readyKeys g)).length < g.length :=
                removeReady_length_lt (readyKeys_ne_nil_of_not_isEmpty hr)
              have hlen' : (removeReady g (readyKeys g)).length ≤ fuel := by omega
              have hnodup' : (keysOf (removeReady g (readyKeys g))).Nodup := by
                rw [keysOf_removeReady]
                exact (keysOf_filter_sublist g _).nodup hn
              have hclosed' : ∀ q ∈ removeReady g (readyKeys g), ∀ d' ∈ q.2,
                  d' ∈ keysOf (removeReady g (readyKeys g)) := by
                intro q hq d' hd'
                obtain ⟨w, hwf, hwq⟩ := List.mem_map.mp hq
                have hwg : w ∈ g := (List.mem_filter.mp hwf).1
                rw [← hwq] at hd'
                have hd'2 := List.mem_filter.mp hd'
                have hd'keys : d' ∈ keysOf g := hclosed w hwg d' hd'2.1
                have hd'notr : ¬ d' ∈ readyKeys g := by
                  intro hc
                  rw [(memStr_iff _ _).mpr hc] at hd'2
                  simp at hd'2
                exact mem_keys_removeReady hd'keys hd'notr
              have hnoself' : ∀ q ∈ removeReady g (readyKeys g), ¬ q.1 ∈ q.2 := by
                intro q hq hc
                obtain ⟨w, hwf, hwq⟩ := List.mem_map.mp hq
                have hwg : w ∈ g := (List.mem_filter.mp hwf).1
                rw [← hwq] at hc
                exact hnoself w hwg (List.mem_filter.mp hc).1
              have ihb := ih (removeReady g (readyKeys g)) rest hlen' hnodup'
                hclosed' hnoself' hrec _ hpmem' d hdmem'
              rw [hidxd, hidxp]
              exact Nat.add_lt_add_left ihb _

theorem keysOf_pairs (l : List String) :
    keysOf (l.map (fun x => (x, ([] : List String)))) = l := by
  induction l with
  | nil => rfl
  | cons a t ih =>
    have hstep : keysOf ((a, ([] : List String)) :: t.map (fun x => (x, ([] : List String))))
        = a :: keysOf (t.map (fun x => (x, ([] : List String)))) := rfl
    rw [List.map_cons, hstep, ih]

theorem keysOf_prep_d1 (data : List (String × List String)) :
    keysOf (data.map (fun p => (p.1, p.2.filter (fun x => x != p.1)))) = keysOf data := by
  simp [keysOf, List.map_map, Function.comp]

theorem toposortPrep_eq {data : List (String × List String)}
    (hclosed : ∀ p ∈ data, ∀ d ∈ p.2, d ∈ keysOf data)
    (hnoself : ∀ p ∈ data, ¬ p.1 ∈ p.2) :
    toposortPrep data = data := by
  have hd1 : data.map (fun p => (p.1, p.2.filter (fun x => x != p.1))) = data := by
    have hpt : ∀ p ∈ data, (p.1, p.2.filter (fun x => x != p.1)) = p := by
      intro p hp
      have hfil : p.2.filter (fun x => x != p.1) = p.2 := by
        apply List.filter_eq_self.mpr
        intro x hx
        have hne : x ≠ p.1 := fun hc => hnoself p hp (hc ▸ hx)
        simpa using hne
      rw [hfil]
    calc data.map (fun p => (p.1, p.2.filter (fun x => x != p.1)))
        = data.map id := List.map_congr_left hpt
      _ = data := List.map_id data
  have hext : ((data.map (fun p => p.2)).flatten.filter
      (fun x => !(memStr x (keysOf data)))).dedup = [] := by
    have hfil : (data.map (fun p => p.2)).flatten.filter
        (fun x => !(memStr x (keysOf data))) = [] := by
      rw [List.filter_eq_nil_iff]
      intro x hx
      obtain ⟨l, hl, hxl⟩ := List.mem_flatten.mp hx
      obtain ⟨p, hp, hpl⟩ := List.mem_map.mp hl
      have hxk : x ∈ keysOf data := hclosed p hp x (hpl ▸ hxl)
      rw [(memStr_iff _ _).mpr hxk]
      simp
    rw [hfil]
    rfl
  show (let d1 := data.map (fun p => (p.1, p.2.filter (fun x => x != p.1)))
        let ks := keysOf d1
        let extras := ((d1.map (fun p => p.2)).flatten.filter (fun x => !(memStr x ks))).dedup
        d1 ++ extras.map (fun x => (x, ([] : List String)))) = data
  simp only [hd1, hext, List.map_nil, List.append_nil]

theorem keysOf_toposortPrep (data : List (String × List String)) :
    ∀ x ∈ keysOf data, x ∈ keysOf (toposortPrep data) := by
  intro x hx
  show x ∈ keysOf
    (let d1 := data.map (fun p => (p.1, p.2.filter (fun x => x != p.1)))
     let ks := keysOf d1
     let extras := ((d1.map (fun p => p.2)).flatten.filter (fun x => !(memStr x ks))).dedup
     d1 ++ extras.map (fun x => (x, ([] : List String))))
  rw [keysOf_append]
  apply List.mem_append_left
  rw [keysOf_prep_d1]
  exact hx

theorem keysOf_toposortPrep_nodup {data : List (String × List String)}
    (hn : (keysOf data).Nodup) : (keysOf (toposortPrep data)).Nodup := by
  show (keysOf
    (let d1 := data.map (fun p => (p.1, p.2.filter (fun x => x != p.1)))
     let ks := keysOf d1
     let extras := ((d1.map (fun p => p.2)).flatten.filter (fun x => !(memStr x ks))).dedup
     d1 ++ extras.map (fun x => (x, ([] : List String))))).Nodup
  rw [keysOf_append]
  rw [List.nodup_append]
  refine ⟨by rw [keysOf_prep_d1]; exact hn, ?_, ?_⟩
  · rw [keysOf_pairs]
    exact List.nodup_dedup _
  · intro x hx hx2
    have hx2' := List.mem_map.mp hx2
    obtain ⟨y, hy, hyx⟩ := hx2'
    obtain ⟨z, hz, hzx⟩ := List.mem_map.mp hy
    have hzf := List.mem_dedup.mp hz
    have hzf2 := (List.mem_filter.mp hzf).2
    rw [← hyx, ← hzx] at hx
    rw [(memStr_iff _ _).mpr hx] at hzf2
    simp at hzf2

/- ## Helper lemmas: graph building and instantiation -/

theorem searchConcrete_mem {provided : List (String × PyClass)} {dmod dname s : String}
    (h : searchConcrete provided dmod dname = some s) : s ∈ keysOf provided := by
  induction provided with
  | nil => simp [searchConcrete] at h
  | cons p t ih =>
    obtain ⟨n, obj⟩ := p
    rw [searchConcrete] at h
    by_cases hc : obj.module = dmod ∧ obj.name = dname
    · rw [if_pos hc] at h
      injection h with h'
      subst h'
      exact List.mem_cons_self _ _
    · rw [if_neg hc] at h
      exact List.mem_cons_of_mem _ (ih h)

theorem searchProtocol_mem {provided : List (String × PyClass)} {p : ProtoDef} {s : String}
    (h : searchProtocol provided p = some s) : s ∈ keysOf provided := by
  induction provided with
  | nil => simp [searchProtocol] at h
  | cons q t ih =>
    obtain ⟨n, obj⟩ := q
    rw [searchProtocol] at h
    by_cases hc : isimplementation obj p = true
    · rw [if_pos hc] at h
      injection h with h'
      subst h'
      exact List.mem_cons_self _ _
    · rw [if_neg hc] at h
      exact List.mem_cons_of_mem _ (ih h)

theorem resolveParams_cons (provided : List (String × PyClass)) (name key : String)
    (dep : DepTy) (rest : List (String × DepTy)) :
    resolveParams provided name ((key, dep) :: rest) =
      if key = "return" then resolveParams provided name rest
      else
        match (match dep with
          | DepTy.proto p => searchProtocol provided p
          | DepTy.con dmod dname => searchConcrete provided dmod dname) with
        | none => .error (.missingDependency name key)
        | some d =>
          match resolveParams provided name rest with
          | .error e => .error e
          | .ok tail => .ok ((key, d) :: tail) := rfl

theorem resolveParams_mem {provided : List (String × PyClass)} {name : String} :
    ∀ {anns : List (String × DepTy)} {reqs : List (String × String)},
    resolveParams provided name anns = .ok reqs →
    ∀ kv ∈ reqs, kv.2 ∈ keysOf provided := by
  intro anns
  induction anns with
  | nil =>
    intro reqs h kv hkv
    rw [resolveParams] at h
    injection h with h'
    subst h'
    simp at hkv
  | cons a rest ih =>
    intro reqs h kv hkv
    obtain ⟨key, dep⟩ := a
    rw [resolveParams_cons] at h
    by_cases hret : key = "return"
    · rw [if_pos hret] at h
      exact ih h kv hkv
    · rw [if_neg hret] at h
      split at h
      next => exact Except.noConfusion h
      next d hm =>
        split at h
        next => exact Except.noConfusion h
        next tail htail =>
          injection h with h'
          subst h'
          rcases List.mem_cons.mp hkv with rfl | hkv'
          · cases dep with
            | proto p => exact searchProtocol_mem hm
            | con dmod dname => exact searchConcrete_mem hm
          · exact ih htail kv hkv'

theorem buildGraphLoop_cons (provided : List (String × PyClass))
    (dg : List (String × List (String × String))) (name : String) (obj : PyClass)
    (rest : List (String × PyClass)) :
    buildGraphLoop provided dg ((name, obj) :: rest) =
      match resolveParams provided name obj.initAnn with
      | .error e => (dg, some e)
      | .ok concrete => buildGraphLoop provided (dictInsert dg name concrete) rest := rfl

theorem buildGraphLoop_ok (provided : List (String × PyClass)) :
    ∀ {items : List (String × PyClass)} {acc dg : List (String × List (String × String))},
    (∀ i ∈ items, ¬ i.1 ∈ keysOf acc) → (keysOf items).Nodup →
    buildGraphLoop provided acc items = (dg, none) →
    keysOf dg = keysOf acc ++ keysOf items
    ∧ ∀ q ∈ dg, q ∈ acc ∨
        ∃ c, (q.1, c) ∈ items ∧ resolveParams provided q.1 c.initAnn = .ok q.2 := by
  intro items
  induction items with
  | nil =>
    intro acc dg _ _ h
    have hred : buildGraphLoop provided acc [] = (acc, none) := rfl
    rw [hred] at h
    injection h with h1 _
    subst h1
    refine ⟨by simp [keysOf], fun q hq => Or.inl hq⟩
  | cons i rest ih =>
    intro acc dg hdisj hnodup h
    obtain ⟨name, obj⟩ := i
    rw [buildGraphLoop_cons] at h
    split at h
    next e hres =>
      injection h with _ h2
      exact Option.noConfusion h2
    next concrete hres =>
      have hnotin : ¬ name ∈ keysOf acc := hdisj (name, obj) (List.mem_cons_self _ _)
      have hins : dictInsert acc name concrete = acc ++ [(name, concrete)] :=
        dictInsert_of_not_hasKey concrete hnotin
      rw [keysOf, List.map_cons, List.nodup_cons] at hnodup
      have hdisj' : ∀ j ∈ rest, ¬ j.1 ∈ keysOf (dictInsert acc name concrete) := by
        intro j hj
        rw [hins, keysOf_append]
        intro hc
        rcases List.mem_append.mp hc with h1 | h1
        · exact hdisj j (List.mem_cons_of_mem _ hj) h1
        · have : j.1 = name := by simpa [keysOf] using h1
          exact hnodup.1 (this ▸ List.mem_map.mpr ⟨j, hj, rfl⟩)
      obtain ⟨hkeys, hent⟩ := ih hdisj' hnodup.2 h
      constructor
      · rw [hkeys, hins, keysOf_append]
        have : keysOf [(name, concrete)] = [name] := rfl
        rw [this, List.append_assoc]
        rfl
      · intro q hq
        rcases hent q hq with hq1 | ⟨c, hc1, hc2⟩
        · rw [hins] at hq1
          rcases List.mem_append.mp hq1 with h1 | h1
          · exact Or.inl h1
          · rcases List.mem_singleton.mp h1 with rfl
            exact Or.inr ⟨obj, List.mem_cons_self _ _, hres⟩
        · exact Or.inr ⟨c, List.mem_cons_of_mem _ hc1, hc2⟩

theorem buildKwargs_mem {env : List (String × Obj)} :
    ∀ {reqs : List (String × String)} {kw : List (String × Obj)},
    buildKwargs env reqs = some kw → ∀ kv ∈ reqs, kv.2 ∈ keysOf env := by
  intro reqs
  induction reqs with
  | nil =>
    intro kw _ kv hkv
    simp at hkv
  | cons a rest ih =>
    intro kw h kv hkv
    obtain ⟨k, v⟩ := a
    rw [buildKwargs] at h
    cases hl : lookupD env v with
    | none =>
      rw [hl] at h
      exact Option.noConfusion h
    | some o =>
      rw [hl] at h
      cases ht : buildKwargs env rest with
      | none =>
        rw [ht] at h
        exact Option.noConfusion h
      | some tail =>
        rw [ht] at h
        rcases List.mem_cons.mp hkv with rfl | hkv'
        · exact mem_keys_of_lookupD hl
        · exact ih ht kv hkv'

theorem instantiate_cons (h : Harness) (x : String) (rest : List String) :
    instantiate h (x :: rest) =
      match lookupD h.depGraph x with
      | none => (h, some .keyError)
      | some reqs =>
        match buildKwargs h.env reqs with
        | none => (h, some .keyError)
        | some kwargs =>
          match lookupD h.provided x with
          | none => (h, some .keyError)
          | some cls =>
            instantiate { h with env := dictInsert h.env x (Obj.inst cls kwargs) } rest := rfl

theorem instantiate_fields : ∀ (order : List String) (h : Harness),
    (instantiate h order).1.provided = h.provided
    ∧ (instantiate h order).1.depGraph = h.depGraph
    ∧ (instantiate h order).1.execOrder = h.execOrder := by
  intro order
  induction order with
  | nil => intro h; exact ⟨rfl, rfl, rfl⟩
  | cons x rest ih =>
    intro h
    rw [instantiate_cons]
    split
    next => exact ⟨rfl, rfl, rfl⟩
    next reqs _ =>
      split
      next => exact ⟨rfl, rfl, rfl⟩
      next kwargs _ =>
        split
        next => exact ⟨rfl, rfl, rfl⟩
        next cls _ =>
          exact ih { h with env := dictInsert h.env x (Obj.inst cls kwargs) }

theorem instantiate_err : ∀ (order : List String) (h : Harness) {e : JabErr},
    (instantiate h order).2 = some e → e = JabErr.keyError := by
  intro order
  induction order with
  | nil =>
    intro h e hx
    have hred : instantiate h [] = (h, none) := rfl
    rw [hred] at hx
    exact Option.noConfusion hx
  | cons x rest ih =>
    intro h e hx
    rw [instantiate_cons] at hx
    split at hx
    next =>
      injection hx with hx'
      exact hx'.symm
    next reqs _ =>
      split at hx
      next =>
        injection hx with hx'
        exact hx'.symm
      next kwargs _ =>
        split at hx
        next =>
          injection hx with hx'
          exact hx'.symm
        next cls _ => exact ih _ hx

theorem keysOf_dictInsert_sub {α : Type} {m : List (String × α)} (k : String) (v : α)
    {x : String} (hx : ¬ x ∈ keysOf m) (hxk : x ≠ k) :
    ¬ x ∈ keysOf (dictInsert m k v) := by
  intro hc
  by_cases h : k ∈ keysOf m
  · rw [keysOf_dictInsert_replace v h] at hc
    exact hx hc
  · rw [dictInsert_of_not_hasKey v h, keysOf_append] at hc
    rcases List.mem_append.mp hc with h1 | h1
    · exact hx h1
    · exact hxk (by simpa [keysOf] using h1)

theorem instantiate_no_self : ∀ (order : List String) (h : Harness) {h' : Harness},
    order.Nodup → (∀ x ∈ order, ¬ x ∈ keysOf h.env) →
    instantiate h order = (h', none) →
    ∀ x ∈ order, ∀ reqs, lookupD h.depGraph x = some reqs →
    ∀ kv ∈ reqs, kv.2 ≠ x := by
  intro order
  induction order with
  | nil =>
    intro h h' _ _ _ x hx
    simp at hx
  | cons y rest ih =>
    intro h h' hnodup henv hinst x hx reqs hreqs kv hkv
    rw [instantiate_cons] at hinst
    split at hinst
    next =>
      injection hinst with _ h2
      exact Option.noConfusion h2
    next reqs0 hl =>
      split at hinst
      next =>
        injection hinst with _ h2
        exact Option.noConfusion h2
      next kwargs hkw =>
        split at hinst
        next =>
          injection hinst with _ h2
          exact Option.noConfusion h2
        next cls hp =>
          rw [List.nodup_cons] at hnodup
          rcases List.mem_cons.mp hx with rfl | hx'
          · have hreqs0 : reqs0 = reqs := by
              rw [hl] at hreqs
              injection hreqs
            subst hreqs0
            have hkvmem : kv.2 ∈ keysOf h.env := buildKwargs_mem hkw kv hkv
            intro hc
            exact henv x (List.mem_cons_self _ _) (hc ▸ hkvmem)
          · have henv' : ∀ z ∈ rest, ¬ z ∈ keysOf
                (dictInsert h.env y (Obj.inst cls kwargs)) := by
              intro z hz
              have hzy : z ≠ y := fun hc => hnodup.1 (hc ▸ hz)
              exact keysOf_dictInsert_sub y _ (henv z (List.mem_cons_of_mem _ hz)) hzy
            exact ih _ hnodup.2 henv' hinst x hx' reqs hreqs kv hkv

/- ## Helper lemmas: the provide pipeline -/

theorem provideLoop_cons (h : Harness) (a : PyArg) (rest : List PyArg) :
    provideLoop h (a :: rest) =
      match checkProvide a with
      | some e => (h, some e)
      | none =>
        match a with
        | .cls c => provideLoop { h with provided := dictInsert h.provided c.name c } rest
        | .nonClass r => (h, some (.noConstructor r)) := rfl

theorem checkProvide_none_cls {a : PyArg} (h : checkProvide a = none) :
    ∃ c, a = PyArg.cls c ∧ c.initAnn.isEmpty = false := by
  cases a with
  | nonClass r =>
    rw [checkProvide] at h
    exact Option.noConfusion h
  | cls c =>
    refine ⟨c, rfl, ?_⟩
    rw [checkProvide] at h
    by_cases he : c.initAnn.isEmpty = true
    · rw [if_pos he] at h
      exact Option.noConfusion h
    · simpa using he

theorem provideLoop_checks : ∀ (args : List PyArg) (h : Harness),
    (∀ a ∈ args, checkProvide a = none) →
    provideLoop h args = buildGraph { h with provided := regAfter h.provided args } := by
  intro args
  induction args with
  | nil => intro h _; rfl
  | cons a rest ih =>
    intro h hchk
    have hca := hchk a (List.mem_cons_self _ _)
    obtain ⟨c, rfl, _⟩ := checkProvide_none_cls hca
    rw [provideLoop_cons]
    split
    next e hsome =>
      rw [hca] at hsome
      exact Option.noConfusion hsome
    next =>
      show provideLoop { h with provided := dictInsert h.provided c.name c } rest
        = buildGraph { h with provided := regAfter h.provided (PyArg.cls c :: rest) }
      have hreg : regAfter h.provided (PyArg.cls c :: rest)
          = regAfter (dictInsert h.provided c.name c) rest := rfl
      rw [hreg]
      exact ih _ (fun a ha => hchk a (List.mem_cons_of_mem _ ha))

theorem provideLoop_ok_checks : ∀ (args : List PyArg) (h : Harness),
    (provideLoop h args).2 = none → ∀ a ∈ args, checkProvide a = none := by
  intro args
  induction args with
  | nil =>
    intro h _ a ha
    simp at ha
  | cons b rest ih =>
    intro h hok a ha
    rw [provideLoop_cons] at hok
    cases hcb : checkProvide b with
    | some e =>
      rw [hcb] at hok
      simp at hok
    | none =>
      rcases List.mem_cons.mp ha with rfl | ha'
      · exact hcb
      · rw [hcb] at hok
        cases b with
        | cls c => exact ih _ hok a ha'
        | nonClass r =>
          rw [checkProvide] at hcb
          exact Option.noConfusion hcb

theorem regAfter_nodup : ∀ (args : List PyArg) (m : List (String × PyClass)),
    (keysOf m).Nodup → (keysOf (regAfter m args)).Nodup := by
  intro args
  induction args with
  | nil => intro m hm; exact hm
  | cons a rest ih =>
    intro m hm
    cases a with
    | cls c => exact ih _ (keysOf_dictInsert_nodup c.name c hm)
    | nonClass r => exact ih _ hm

theorem buildGraph_eq (h : Harness) :
    buildGraph h =
      match buildGraphLoop h.provided h.depGraph h.provided with
      | (dg, some e) => ({ h with depGraph := dg }, some e)
      | (dg, none) => buildEnv { h with depGraph := dg } := rfl

theorem buildEnv_eq (h : Harness) :
    buildEnv h =
      match toposortFlatten (stripGraph h.depGraph) with
      | .error e => (h, some e)
      | .ok order => instantiate { h with execOrder := order } order := rfl

theorem keysOf_stripGraph (dg : List (String × List (String × String))) :
    keysOf (stripGraph dg) = keysOf dg := by
  simp [stripGraph, keysOf, List.map_map, Function.comp]

/-- The facts a successful build from scratch establishes: unique
registry keys, one dependency-graph entry per registry entry (each the
result of resolving that component's constructor annotations), a
topological sort that succeeded and whose output is the execution order,
the execution order a permutation of the registry keys, no self-edges,
and every dependency strictly before its depender in the execution
order. -/
theorem provideFresh_ok_facts (args : List PyArg) (h' : Harness)
    (hp : provideFresh args = (h', none)) :
    (keysOf h'.provided).Nodup
    ∧ keysOf h'.depGraph = keysOf h'.provided
    ∧ (∀ q ∈ h'.depGraph, ∃ c, (q.1, c) ∈ h'.provided
        ∧ resolveParams h'.provided q.1 c.initAnn = .ok q.2)
    ∧ toposortFlatten (stripGraph h'.depGraph) = .ok h'.execOrder
    ∧ List.Perm h'.execOrder (keysOf h'.provided)
    ∧ (∀ p ∈ h'.depGraph, ∀ kv ∈ p.2, kv.2 ≠ p.1)
    ∧ (∀ p ∈ h'.depGraph, ∀ kv ∈ p.2, idxOf kv.2 h'.execOrder < idxOf p.1 h'.execOrder) := by
  have hchk : ∀ a ∈ args, checkProvide a = none := by
    apply provideLoop_ok_checks args Harness.new
    rw [show provideLoop Harness.new args = provideFresh args from rfl, hp]
  have heq : provideFresh args
      = buildGraph { Harness.new with provided := regAfter Harness.new.provided args } :=
    provideLoop_checks args Harness.new hchk
  rw [heq] at hp
  have hregnodup : (keysOf (regAfter Harness.new.provided args)).Nodup :=
    regAfter_nodup args _ (by simp [Harness.new, keysOf])
  rw [buildGraph_eq] at hp
  split at hp
  next dg e hbg =>
    injection hp with _ hp2
    exact Option.noConfusion hp2
  next dg hbg =>
    have hbgfacts := buildGraphLoop_ok (regAfter Harness.new.provided args)
      (fun i _ hc => by simp [Harness.new, keysOf] at hc) hregnodup hbg
    obtain ⟨hkeys0, hent0⟩ := hbgfacts
    have hkeysdg : keysOf dg = keysOf (regAfter Harness.new.provided args) := by
      rw [hkeys0]
      rfl
    have hdgnodup : (keysOf dg).Nodup := hkeysdg ▸ hregnodup
    rw [buildEnv_eq] at hp
    split at hp
    next e htopo =>
      injection hp with _ hp2
      exact Option.noConfusion hp2
    next order htopo =>
      have htopo2 : toposortFlatten (stripGraph dg) = Except.ok order := htopo
      -- field equalities out of the instantiation loop
      have hfst0 := congrArg Prod.fst hp
      have hfst : _ = h' := hfst0
      have hprov : h'.provided = regAfter Harness.new.provided args := by
        rw [← hfst]
        exact (instantiate_fields order _).1
      have hdep : h'.depGraph = dg := by
        rw [← hfst]
        exact (instantiate_fields order _).2.1
      have hord : h'.execOrder = order := by
        rw [← hfst]
        exact (instantiate_fields order _).2.2
      -- nodup keys of the stripped graph
      have hstrips : keysOf (stripGraph dg) = keysOf dg := keysOf_stripGraph dg
      have hstripnodup : (keysOf (stripGraph dg)).Nodup := by
        rw [hstrips]
        exact hdgnodup
      -- the sorted order is a permutation of the preprocessed keys
      have hperm0 : List.Perm order (keysOf (toposortPrep (stripGraph dg))) :=
        kahn_perm _ _ _ (Nat.le_refl _) (keysOf_toposortPrep_nodup hstripnodup) htopo2
      have hordnodup : order.Nodup :=
        hperm0.symm.nodup ((keysOf_toposortPrep_nodup hstripnodup))
      -- no self-edges, from the successful instantiation over an empty env
      have hnoselfdg : ∀ p ∈ dg, ∀ kv ∈ p.2, kv.2 ≠ p.1 := by
        intro p hpmem kv hkv
        have hp1 : p.1 ∈ keysOf (stripGraph dg) := by
          rw [hstrips]
          exact List.mem_map.mpr ⟨p, hpmem, rfl⟩
        have hp1ord : p.1 ∈ order := by
          rw [hperm0.mem_iff]
          exact keysOf_toposortPrep (stripGraph dg) p.1 hp1
        have hlook : lookupD dg p.1 = some p.2 := lookupD_of_mem_nodup hdgnodup hpmem
        exact instantiate_no_self order _ hordnodup
          (fun x _ hc => by simp [Harness.new, keysOf] at hc) hp p.1 hp1ord p.2 hlook kv hkv
      -- the stripped graph is closed and self-edge free
      have hclosed : ∀ p ∈ stripGraph dg, ∀ d ∈ p.2, d ∈ keysOf (stripGraph dg) := by
        intro p hpmem d hd
        obtain ⟨q, hq, hq2⟩ := List.mem_map.mp hpmem
        rw [← hq2] at hd
        obtain ⟨kv, hkv, hkv2⟩ := List.mem_map.mp hd
        obtain ⟨c, _, hres⟩ := (hent0 q hq).resolve_left (by simp [Harness.new])
        have := resolveParams_mem hres kv hkv
        rw [hstrips, hkeysdg]
        rw [← hkv2]
        exact this
      have hnoselfstrip : ∀ p ∈ stripGraph dg, ¬ p.1 ∈ p.2 := by
        intro p hpmem hc
        obtain ⟨q, hq, hq2⟩ := List.mem_map.mp hpmem
        rw [← hq2] at hc
        obtain ⟨kv, hkv, hkv2⟩ := List.mem_map.mp hc
        exact hnoselfdg q hq kv hkv (by rw [hkv2])
      -- with those, preprocessing is the identity
      have hprep : toposortPrep (stripGraph dg) = stripGraph dg :=
        toposortPrep_eq hclosed hnoselfstrip
      have hperm : List.Perm order (keysOf h'.provided) := by
        rw [hprov, ← hkeysdg, ← hstrips]
        exact hperm0.trans (by rw [hprep])
      have hbefore : ∀ p ∈ dg, ∀ kv ∈ p.2,
          idxOf kv.2 order < idxOf p.1 order := by
        intro p hpmem kv hkv
        have htopo' : kahnFuel (stripGraph dg).length (stripGraph dg) = .ok order := by
          have : toposortFlatten (stripGraph dg)
              = kahnFuel (toposortPrep (stripGraph dg)).length (toposortPrep (stripGraph dg)) :=
            rfl
          rw [this, hprep] at htopo2
          exact htopo2
        have hb := kahn_before (stripGraph dg).length (stripGraph dg) order
          (Nat.le_refl _) hstripnodup hclosed hnoselfstrip htopo'
        have hps : (p.1, p.2.map (fun kv => kv.2)) ∈ stripGraph dg :=
          List.mem_map.mpr ⟨p, hpmem, rfl⟩
        have hds : kv.2 ∈ p.2.map (fun kv => kv.2) := List.mem_map.mpr ⟨kv, hkv, rfl⟩
        exact hb _ hps kv.2 hds
      refine ⟨hprov ▸ hregnodup, ?_, ?_, ?_, ?_, ?_, ?_⟩
      · rw [hprov, hdep]
        exact hkeysdg
      · intro q hq
        rw [hdep] at hq
        obtain ⟨c, hc1, hc2⟩ := (hent0 q hq).resolve_left (by simp [Harness.new])
        exact ⟨c, hprov ▸ hc1, hprov ▸ hc2⟩
      · rw [hdep, hord]
        exact htopo2
      · rw [hord]
        exact hperm
      · rw [hdep]
        exact hnoselfdg
      · rw [hdep, hord]
        exact hbefore

theorem provide_env_unchanged : ∀ (args : List PyArg) (h h' : Harness) (e : JabErr),
    provide h args = (h', some e) → e ≠ JabErr.keyError → h'.env = h.env := by
  intro args
  induction args with
  | nil =>
    intro h h' e hp hk
    rw [show provide h [] = buildGraph h from rfl, buildGraph_eq] at hp
    split at hp
    next dg e' hbg =>
      injection hp with hp1 hp2
      rw [← hp1]
    next dg hbg =>
      rw [buildEnv_eq] at hp
      split at hp
      next e' htopo =>
        injection hp with hp1 hp2
        rw [← hp1]
      next order htopo =>
        have hsnd : _ = some e := congrArg Prod.snd hp
        exact absurd (instantiate_err order _ hsnd) hk
  | cons a rest ih =>
    intro h h' e hp hk
    rw [show provide h (a :: rest) = provideLoop h (a :: rest) from rfl,
      provideLoop_cons] at hp
    split at hp
    next e' hsome =>
      injection hp with hp1 hp2
      rw [← hp1]
    next =>
      cases a with
      | cls c =>
        exact ih { h with provided := dictInsert h.provided c.name c } h' e hp hk
      | nonClass r =>
        injection hp with hp1 hp2
        rw [← hp1]

/- ## Helper lemmas: the lifecycle orchestrator -/

theorem collectStart_cons (env : List (String × Obj)) (x : String) (rest : List String) :
    collectStart env (x :: rest) =
      match lookupD env x with
      | none => ([], some .keyError)
      | some (Obj.inst cls _) =>
        match cls.onStart with
        | none => collectStart env rest
        | some .sync => ([], some (.invalidLifecycleMethod x))
        | some .async =>
          match collectStart env rest with
          | (tr, e) => (.startScheduled x :: tr, e) := rfl

theorem collectRun_cons (env : List (String × Obj)) (x : String) (rest : List String) :
    collectRun env (x :: rest) =
      match lookupD env x with
      | none => ([], some .keyError)
      | some (Obj.inst cls _) =>
        match cls.run with
        | none => collectRun env rest
        | some .sync => ([], some (.invalidLifecycleMethod x))
        | some .async =>
          match collectRun env rest with
          | (tr, e) => (.runScheduled x :: tr, e) := rfl

theorem onStopLoop_cons (env : List (String × Obj)) (x : String) (rest : List String) :
    onStopLoop env (x :: rest) =
      match lookupD env x with
      | none => ([], some .keyError)
      | some (Obj.inst cls _) =>
        match cls.onStop with
        | none => onStopLoop env rest
        | some _ =>
          match onStopLoop env rest with
          | (tr, e) => (.stopCalled x :: tr, e) := rfl

theorem collectStart_no_stop : ∀ (l : List String) (env : List (String × Obj)),
    (collectStart env l).1.filter Event.isStop = [] := by
  intro l
  induction l with
  | nil => intro env; rfl
  | cons x rest ih =>
    intro env
    rw [collectStart_cons]
    split
    next => rfl
    next cls kw hl =>
      split
      next => exact ih env
      next => rfl
      next =>
        show ((Event.startScheduled x :: (collectStart env rest).1,
          (collectStart env rest).2).1.filter Event.isStop) = []
        simp only [List.filter_cons]
        have : Event.isStop (Event.startScheduled x) = false := rfl
        rw [this]
        simpa using ih env

theorem collectRun_no_stop : ∀ (l : List String) (env : List (String × Obj)),
    (collectRun env l).1.filter Event.isStop = [] := by
  intro l
  induction l with
  | nil => intro env; rfl
  | cons x rest ih =>
    intro env
    rw [collectRun_cons]
    split
    next => rfl
    next cls kw hl =>
      split
      next => exact ih env
      next => rfl
      next =>
        show ((Event.runScheduled x :: (collectRun env rest).1,
          (collectRun env rest).2).1.filter Event.isStop) = []
        simp only [List.filter_cons]
        have : Event.isStop (Event.runScheduled x) = false := rfl
        rw [this]
        simpa using ih env

theorem onStopLoop_all_stop : ∀ (l : List String) (env : List (String × Obj)),
    (onStopLoop env l).1.filter Event.isStop = (onStopLoop env l).1 := by
  intro l
  induction l with
  | nil => intro env; rfl
  | cons x rest ih =>
    intro env
    rw [onStopLoop_cons]
    split
    next => rfl
    next cls kw hl =>
      split
      next => exact ih env
      next =>
        show ((Event.stopCalled x :: (onStopLoop env rest).1,
          (onStopLoop env rest).2).1.filter Event.isStop)
          = (Event.stopCalled x :: (onStopLoop env rest).1,
            (onStopLoop env rest).2).1
        simp only [List.filter_cons]
        have : Event.isStop (Event.stopCalled x) = true := rfl
        rw [this]
        simpa using ih env

theorem onStopLoop_complete : ∀ (l : List String) (env : List (String × Obj)),
    (∀ x ∈ l, (lookupD env x).isSome = true) →
    onStopLoop env l
      = ((l.filter (fun x => hasStopHook env x)).map Event.stopCalled, none) := by
  intro l
  induction l with
  | nil => intro env _; rfl
  | cons x rest ih =>
    intro env henv
    obtain ⟨o, ho⟩ := Option.isSome_iff_exists.mp (henv x (List.mem_cons_self _ _))
    have ihr := ih env (fun z hz => henv z (List.mem_cons_of_mem _ hz))
    rw [onStopLoop_cons]
    split
    next hl =>
      rw [ho] at hl
      exact Option.noConfusion hl
    next cls2 kw2 hl =>
      split
      next hnone =>
        have hhs : hasStopHook env x = false := by
          simp [hasStopHook, hl, hnone]
        rw [List.filter_cons, hhs]
        simpa using ihr
      next hk hsome =>
        have hhs : hasStopHook env x = true := by
          simp [hasStopHook, hl, hsome]
        rw [List.filter_cons, hhs, ihr]
        simp

theorem onStartMeth_no_raise (env : List (String × Obj)) (order : List String)
    (outcome : WaitOutcome) (tr : List Event) (hc : collectStart env order = (tr, none)) :
    onStartMeth env order outcome
      = (tr, PhaseExit.returned (match outcome with
          | WaitOutcome.ok => false
          | WaitOutcome.keyboardInterrupt => true
          | WaitOutcome.exception => true)) := by
  cases outcome <;> simp [onStartMeth, hc]

theorem onStartMeth_raise (env : List (String × Obj)) (order : List String)
    (outcome : WaitOutcome) (tr : List Event) (e : JabErr)
    (hc : collectStart env order = (tr, some e)) :
    onStartMeth env order outcome = (tr, PhaseExit.raised e) := by
  simp [onStartMeth, hc]

theorem runMeth_no_raise (env : List (String × Obj)) (order : List String)
    (outcome : WaitOutcome) (tr : List Event) (hc : collectRun env order = (tr, none)) :
    runMeth env order outcome = (tr, PhaseExit.returned false) := by
  cases outcome <;> simp [runMeth, hc]

theorem searchProtocol_cons (n : String) (obj : PyClass) (rest : List (String × PyClass))
    (p : ProtoDef) :
    searchProtocol ((n, obj) :: rest) p
      = if isimplementation obj p then some n else searchProtocol rest p := rfl

theorem searchConcrete_cons (n : String) (obj : PyClass) (rest : List (String × PyClass))
    (dmod dname : String) :
    searchConcrete ((n, obj) :: rest) dmod dname
      = if obj.module = dmod ∧ obj.name = dname then some n
        else searchConcrete rest dmod dname := rfl

theorem searchConcrete_none {provided : List (String × PyClass)} {dmod dname : String}
    (h : ∀ q ∈ provided, ¬ (q.2.module = dmod ∧ q.2.name = dname)) :
    searchConcrete provided dmod dname = none := by
  induction provided with
  | nil => rfl
  | cons q rest ih =>
    obtain ⟨n, obj⟩ := q
    rw [searchConcrete_cons, if_neg (h (n, obj) (List.mem_cons_self _ _))]
    exact ih (fun r hr => h r (List.mem_cons_of_mem _ hr))

theorem lookupD_append_right {α : Type} {m m2 : List (String × α)} {k : String}
    (h : ¬ k ∈ keysOf m) : lookupD (m ++ m2) k = lookupD m2 k := by
  induction m with
  | nil => rfl
  | cons p t ih =>
    have hk : p.1 ≠ k := by
      intro hc
      exact h (by rw [← hc]; exact List.mem_map.mpr ⟨p, List.mem_cons_self _ _, rfl⟩)
    show (if p.1 = k then some p.2 else lookupD (t ++ m2) k) = lookupD m2 k
    rw [if_neg hk]
    exact ih (fun hc => h (by
      rcases List.mem_map.mp hc with ⟨q, hq, hq1⟩
      exact List.mem_map.mpr ⟨q, List.mem_cons_of_mem _ hq, hq1⟩))

theorem lookupD_dictInsert_self {α : Type} (m : List (String × α)) (k : String) (v : α) :
    lookupD (dictInsert m k v) k = some v := by
  rw [dictInsert]
  by_cases h : hasKey m k = true
  · rw [if_pos h]
    induction m with
    | nil =>
      rw [hasKey] at h
      simp [lookupD] at h
    | cons p t ih =>
      by_cases hp : p.1 = k
      · show lookupD ((if p.1 = k then (k, v) else p) :: t.map
          (fun p => if p.1 = k then (k, v) else p)) k = some v
        rw [if_pos hp]
        show (if k = k then some v else _) = some v
        rw [if_pos rfl]
      · show lookupD ((if p.1 = k then (k, v) else p) :: t.map
          (fun p => if p.1 = k then (k, v) else p)) k = some v
        rw [if_neg hp]
        show (if p.1 = k then some p.2 else lookupD (t.map
          (fun p => if p.1 = k then (k, v) else p)) k) = some v
        rw [if_neg hp]
        apply ih
        rw [hasKey] at h ⊢
        rw [show lookupD (p :: t) k = if p.1 = k then some p.2 else lookupD t k from rfl,
          if_neg hp] at h
        exact h
  · rw [if_neg h]
    have hk : ¬ k ∈ keysOf m := fun hc => h ((hasKey_iff m k).mpr hc)
    rw [lookupD_append_right hk]
    show (if k = k then some v else none) = some v
    rw [if_pos rfl]

theorem fsLoop_cons (impl : List (String × PTy)) (param : String) (protoTy : PTy)
    (rest : List (String × PTy)) :
    fsLoop impl ((param, protoTy) :: rest) =
      match lookupD impl param with
      | none => .ok false
      | some implTy =>
        match implTy with
        | .union args =>
          if tyMem protoTy args then
            if param = "return" then .error .returnedUnionType
            else fsLoop impl rest
          else .ok false
        | .con m n =>
          if tyEq protoTy (.con m n) then fsLoop impl rest else .ok false := rfl

/- ## The claims -/

/-- C1, counterexample: the claim says every cyclic set of definitions
fails with `CircularDependency`.  A class whose constructor requires the
class itself makes the resolved dependency graph cyclic (the self-edge
is visible in the resulting `depGraph`), yet the build fails with
`KeyError` instead: `toposort` discards self-dependencies before
sorting, the order is computed, and instantiation then cannot find the
component's own instance in the still-empty Environment. -/
theorem claim1_counterexample :
    provideFresh [PyArg.cls clsSelf] = (hSelf, some JabErr.keyError) := rfl

/-- C1, amended: for a set of definitions that validates and resolves
and whose resolved graph is cyclic among two or more distinct
components (the Kahn sorter gets stuck, which after self-edge discard
means such a cycle), `provide` raises `CircularDependency` and mutates
only the registry and the dependency graph: the Environment and the
execution order are exactly what they were before the call — in
particular no component instance is added. -/
theorem claim1_amended (h : Harness) (args : List PyArg)
    (dg : List (String × List (String × String)))
    (hchk : ∀ a ∈ args, checkProvide a = none)
    (hres : buildGraphLoop (regAfter h.provided args) h.depGraph
      (regAfter h.provided args) = (dg, none))
    (hcyc : toposortFlatten (stripGraph dg) = .error JabErr.circularDependency) :
    provide h args
      = ({ h with provided := regAfter h.provided args, depGraph := dg },
         some JabErr.circularDependency) := by
  rw [show provide h args = provideLoop h args from rfl,
    provideLoop_checks args h hchk, buildGraph_eq]
  have hres' : buildGraphLoop ({ h with provided := regAfter h.provided args }).provided
      ({ h with provided := regAfter h.provided args }).depGraph
      ({ h with provided := regAfter h.provided args }).provided = (dg, none) := hres
  rw [hres']
  show buildEnv { h with provided := regAfter h.provided args, depGraph := dg }
      = ({ h with provided := regAfter h.provided args, depGraph := dg },
         some JabErr.circularDependency)
  rw [buildEnv_eq]
  have hcyc' : toposortFlatten (stripGraph
      ({ h with provided := regAfter h.provided args, depGraph := dg }).depGraph)
      = .error JabErr.circularDependency := hcyc
  rw [hcyc']

/-- C1, witness: the two-cycle CycA requires CycB requires CycA fails
with `CircularDependency`, leaving the fresh harness's Environment and
execution order empty. -/
theorem claim1_witness :
    provide Harness.new args1w
      = ({ Harness.new with
           provided := regAfter Harness.new.provided args1w,
           depGraph := dg1w },
         some JabErr.circularDependency) :=
  claim1_amended Harness.new args1w dg1w (by decide) (by rfl) (by rfl)

/-- C3, counterexample: the claim says a failing provide leaves no
partial state in the Registry.  Providing a valid class followed by a
non-class raises `NoConstructor`, yet the valid class stays registered:
the registry insertion at src/jab/harness.py line 45 happens before the
failing validation of the next argument and is never rolled back. -/
theorem claim3_counterexample :
    provideFresh [PyArg.cls clsOnlyRet, PyArg.nonClass ("5")]
      = ({ Harness.new with provided := [(("OnlyRet"), clsOnlyRet)] },
         some (JabErr.noConstructor ("5"))) := rfl

/-- C3, amended: atomicity holds only for the Environment.  Every
failing provide whose error is not the instantiation-time `KeyError` —
that is, `NoConstructor`, `NoAnnotation`, `MissingDependency` and
`CircularDependency` — leaves the Environment exactly as it was, while
the Registry retains definitions inserted before the failure and the
DependencyGraph retains entries resolved before the failure. -/
theorem claim3_amended (h h' : Harness) (args : List PyArg) (e : JabErr)
    (hp : provide h args = (h', some e)) (hk : e ≠ JabErr.keyError) :
    h'.env = h.env :=
  provide_env_unchanged args h h' e hp hk

/-- C3, witness: a build failing with `NoConstructor` on its second
argument leaves the Environment empty. -/
theorem claim3_witness :
    ({ Harness.new with provided := [(("W3"), clsW3)] } : Harness).env
      = Harness.new.env :=
  claim3_amended Harness.new _ [PyArg.cls clsW3, PyArg.nonClass ("bad")]
    (JabErr.noConstructor ("bad")) (by rfl) (by decide)

/-- C4: for every build from scratch that succeeds (with a cyclic graph
it cannot succeed, so this covers every acyclic, fully resolvable set of
definitions), the computed ExecutionOrder is a permutation of the
registered component names — a total order over all of them — and for
every edge of the DependencyGraph the dependency's name appears strictly
before the depender's name in it. -/
theorem claim4 (args : List PyArg) (h' : Harness)
    (hp : provideFresh args = (h', none)) :
    List.Perm h'.execOrder (keysOf h'.provided)
    ∧ ∀ p ∈ h'.depGraph, ∀ kv ∈ p.2,
      idxOf kv.2 h'.execOrder < idxOf p.1 h'.execOrder := by
  obtain ⟨-, -, -, -, hperm, -, hbefore⟩ := provideFresh_ok_facts args h' hp
  exact ⟨hperm, hbefore⟩

/-- C4, witness: the chain ChA, ChB requiring ChA, ChC requiring ChB
builds to execution order ChA, ChB, ChC, a total order respecting both
edges. -/
theorem claim4_witness :
    List.Perm h4w.execOrder (keysOf h4w.provided)
    ∧ ∀ p ∈ h4w.depGraph, ∀ kv ∈ p.2,
      idxOf kv.2 h4w.execOrder < idxOf p.1 h4w.execOrder :=
  claim4 args4w h4w (by rfl)

/-- C6, counterexample: the claim says the Interface Matcher accepts a
union-typed candidate parameter when the contract's required type is
among the union's members.  The matcher the Harness actually wires into
graph building (`isimplementation` of src/jab/harness.py, via
`_search_protocol`) compares method annotation dicts for exact equality:
the required int is a member of the candidate's union, yet the match is
rejected — and `ReturnedUnionType` is never raised on the build path. -/
theorem claim6_counterexample :
    tyMem (PTy.con ("builtins") ("int"))
      [(("builtins"), ("int")), (("builtins"), ("float"))] = true
    ∧ isimplementation clsU6 protoU = false := by decide

/-- C6, amended: the union rule lives in the standalone matcher of
src/jab/search.py, which the Harness does not call.  In its parameter
loop (`func_satisfies`), a union-typed implementation entry whose
members include the contract's required type is accepted and skipped
when it is an ordinary parameter, raises `ReturnedUnionType` when it is
the return entry, and is rejected with a plain no-match when the
required type is not among the members. -/
theorem claim6_amended (impl rest : List (String × PTy)) (param : String) (pt : PTy)
    (args : List (String × String)) (h1 : lookupD impl param = some (PTy.union args)) :
    (tyMem pt args = true → param ≠ "return" →
      fsLoop impl ((param, pt) :: rest) = fsLoop impl rest)
    ∧ (tyMem pt args = true → param = "return" →
      fsLoop impl ((param, pt) :: rest) = .error SearchErr.returnedUnionType)
    ∧ (tyMem pt args = false → fsLoop impl ((param, pt) :: rest) = .ok false) := by
  refine ⟨?_, ?_, ?_⟩
  · intro hmem hret
    simp only [fsLoop_cons, h1, hmem, if_true]
    rw [if_neg hret]
  · intro hmem hret
    simp only [fsLoop_cons, h1, hmem, if_true]
    rw [if_pos hret]
  · intro hmem
    simp only [fsLoop_cons, h1, hmem]
    simp

/-- C6, witness: a union parameter containing the required int is
skipped over, and a union return containing the required int raises
`ReturnedUnionType`. -/
theorem claim6_witness :
    fsLoop implW6 [(("x"), PTy.con ("builtins") ("int")),
        (("return"), PTy.con ("builtins") ("str"))]
      = fsLoop implW6 [(("return"), PTy.con ("builtins") ("str"))]
    ∧ fsLoop implW6R [(("return"), PTy.con ("builtins") ("int"))]
      = .error SearchErr.returnedUnionType :=
  ⟨(claim6_amended implW6 [(("return"), PTy.con ("builtins") ("str"))] ("x")
      (PTy.con ("builtins") ("int")) [(("builtins"), ("int")), (("builtins"), ("float"))]
      (by rfl)).1 (by rfl) (by decide),
   (claim6_amended implW6R [] ("return") (PTy.con ("builtins") ("int"))
      [(("builtins"), ("int")), (("builtins"), ("str"))] (by rfl)).2.1 (by rfl) rfl⟩

/-- C7: the Interface Matcher's candidate search is registration order
and returns the first structurally satisfying component: whenever the
registry splits into a prefix of non-satisfying entries followed by a
satisfying one, the search resolves to that one — in particular, with
two or more satisfying components it deterministically picks the
earliest registered (determinism is inherent: the search is a pure
function of the registry and contract). -/
theorem claim7 (provided : List (String × PyClass)) (p : ProtoDef)
    (pre suf : List (String × PyClass)) (a : String × PyClass)
    (hsplit : provided = pre ++ a :: suf)
    (ha : isimplementation a.2 p = true)
    (hpre : ∀ q ∈ pre, isimplementation q.2 p = false) :
    searchProtocol provided p = some a.1 := by
  subst hsplit
  induction pre with
  | nil =>
    obtain ⟨n, obj⟩ := a
    show searchProtocol ((n, obj) :: suf) p = some n
    rw [searchProtocol_cons, if_pos ha]
  | cons q pre' ih =>
    have hq := hpre q (List.mem_cons_self _ _)
    obtain ⟨n, obj⟩ := q
    show searchProtocol ((n, obj) :: (pre' ++ a :: suf)) p = some a.1
    rw [searchProtocol_cons, if_neg (by simp [hq])]
    exact ih (fun r hr => hpre r (List.mem_cons_of_mem _ hr))

/-- C7, witness: Yel and Zed both satisfy the Speaker contract; Yel was
registered first and the matcher resolves to Yel. -/
theorem claim7_witness :
    isimplementation clsZ7 protoW = true
    ∧ searchProtocol provided7 protoW = some ("Yel") :=
  ⟨by decide,
   claim7 provided7 protoW [] [(("Zed"), clsZ7)] ((("Yel"), clsY7)) rfl (by decide)
     (by intro q hq; simp at hq)⟩

/-- C8, counterexample: the claim says a class whose constructor
declares no dependency-typed parameter fails `NoAnnotation`.  A
constructor annotated only with its return type declares no
dependency-typed parameter, yet its annotation dict is non-empty, so
the length check at src/jab/harness.py line 184 passes and validation
succeeds. -/
theorem claim8_counterexample :
    clsOnlyRet.initAnn.filter (fun kv => kv.1 != "return") = []
    ∧ checkProvide (PyArg.cls clsOnlyRet) = none := by decide

/-- C8, amended: validation of a provide argument fails `NoConstructor`
exactly on non-class arguments, and fails `NoAnnotation` exactly when
the constructor's annotation dict is empty — the return annotation
counts, so a constructor whose only annotation is its return type
passes validation even though it declares no dependency-typed
parameter. -/
theorem claim8_amended :
    (∀ r, checkProvide (PyArg.nonClass r) = some (JabErr.noConstructor r))
    ∧ (∀ c : PyClass, checkProvide (PyArg.cls c) = some (JabErr.noAnno c.name)
        ↔ c.initAnn = [])
    ∧ (∀ c : PyClass, checkProvide (PyArg.cls c) = none ↔ c.initAnn ≠ []) := by
  refine ⟨fun r => rfl, fun c => ?_, fun c => ?_⟩
  · rw [checkProvide]
    by_cases he : c.initAnn.isEmpty = true
    · rw [if_pos he]
      simp [(isEmpty_true_iff _).mp he]
    · rw [if_neg he]
      have hne : c.initAnn ≠ [] := fun hc => he ((isEmpty_true_iff _).mpr hc)
      simp [hne]
  · rw [checkProvide]
    by_cases he : c.initAnn.isEmpty = true
    · rw [if_pos he]
      simp [(isEmpty_true_iff _).mp he]
    · rw [if_neg he]
      have hne : c.initAnn ≠ [] := fun hc => he ((isEmpty_true_iff _).mpr hc)
      simp [hne]

/-- C8, witness: a non-class argument fails `NoConstructor` and a class
with an empty annotation dict fails `NoAnnotation`. -/
theorem claim8_witness :
    checkProvide (PyArg.nonClass ("5")) = some (JabErr.noConstructor ("5"))
    ∧ checkProvide (PyArg.cls clsBare) = some (JabErr.noAnno ("Bare")) :=
  ⟨claim8_amended.1 ("5"), (claim8_amended.2.1 clsBare).mpr rfl⟩

/-- C9, counterexample: the claim says no graph the builder produces
contains a self-edge.  Resolving a self-dependent class, the concrete
search finds the class itself (nothing excludes the depender), and the
builder stores a graph whose single entry resolves to its own name. -/
theorem claim9_counterexample :
    (provideFresh [PyArg.cls clsSelf9]).1.depGraph
      = [(("Loop9"), [(("x"), ("Loop9"))])] := rfl

/-- C9, amended: every resolved dependency name exists in the Registry,
for every graph the resolution step produces; the no-self-edge property
is not enforced by the builder, but holds for every graph of a build
that completes successfully, because instantiating a self-dependent
component fails (its own instance is not yet in the Environment when its
keyword arguments are gathered). -/
theorem claim9_amended :
    (∀ (provided : List (String × PyClass)) (name : String)
      (anns : List (String × DepTy)) (reqs : List (String × String)),
      resolveParams provided name anns = .ok reqs →
      ∀ kv ∈ reqs, kv.2 ∈ keysOf provided)
    ∧ (∀ (args : List PyArg) (h' : Harness), provideFresh args = (h', none) →
      ∀ p ∈ h'.depGraph, ∀ kv ∈ p.2, kv.2 ≠ p.1) := by
  constructor
  · intro provided name anns reqs h kv hkv
    exact resolveParams_mem h kv hkv
  · intro args h' hp
    exact (provideFresh_ok_facts args h' hp).2.2.2.2.2.1

/-- C9, witness: in the successful DepD, UserE build, the resolved name
DepD is a registry key, and UserE's parameter does not resolve to UserE
itself. -/
theorem claim9_witness :
    (("DepD") : String) ∈ keysOf h9w.provided
    ∧ ((("DepD") : String) ≠ (("UserE") : String)) :=
  ⟨claim9_amended.1 h9w.provided ("UserE") clsE9.initAnn [(("d"), ("DepD"))]
      (by rfl) ((("d"), ("DepD"))) (by simp),
   claim9_amended.2 args9w h9w (by rfl) ((("UserE"), [(("d"), ("DepD"))])) (by simp [h9w])
      ((("d"), ("DepD"))) (by simp)⟩

/-- C10: the Registry is keyed by bare class name: for two classes with
the same name but different originating modules, registering the second
replaces the first (the dict keeps one entry, holding the second class),
and a subsequent concrete-type lookup for the replaced class — which
compares module and name — finds no match. -/
theorem claim10 (m : List (String × PyClass)) (c1 c2 : PyClass)
    (hname : c1.name = c2.name) (hmod : c1.module ≠ c2.module)
    (hm : ∀ q ∈ m, ¬ (q.2.module = c1.module ∧ q.2.name = c1.name)) :
    lookupD (dictInsert (dictInsert m c1.name c1) c2.name c2) c1.name = some c2
    ∧ searchConcrete (dictInsert (dictInsert m c1.name c1) c2.name c2)
        c1.module c1.name = none := by
  constructor
  · rw [hname]
    exact lookupD_dictInsert_self _ _ _
  · apply searchConcrete_none
    intro q hq
    rcases mem_dictInsert hq with rfl | ⟨hq1, hq2⟩
    · intro hc
      exact hmod (hc.1.symm)
    · rcases mem_dictInsert hq1 with rfl | ⟨hq3, hq4⟩
      · exact absurd (hname) hq2
      · exact hm q hq3

/-- C2, counterexample: the claim says that with a non-asynchronous
start hook the orchestrator raises `InvalidLifecycleMethod` and still
transitions to the stop phase.  The exception indeed aborts the start
collection, but `Harness.run` has no `try`/`finally`: it propagates out
of `run` and the stop phase never executes — the trace is empty although
the component declares a stop hook. -/
theorem claim2_counterexample :
    clsLC2.onStop.isSome = true
    ∧ runHarness hC2 WaitOutcome.ok WaitOutcome.ok
      = ([], some (JabErr.invalidLifecycleMethod ("SyncStart"))) := ⟨rfl, rfl⟩

/-- C2, amended: the stop phase executes exactly once per invocation
whose start and run hook-collection loops raise nothing: whatever the
barrier outcomes (success, cancellation or failure in start or run), the
stop events of the whole invocation are exactly one pass of the stop
phase, and a cancellation at the start barrier goes straight to stop,
skipping run.  When a collection loop raises (`InvalidLifecycleMethod`
for a non-async hook, `KeyError` for a missing instance) the exception
propagates out of `run` and the stop phase does not execute. -/
theorem claim2_amended (h : Harness) (o1 o2 : WaitOutcome)
    (hs : (collectStart h.env h.execOrder).2 = none)
    (hr : (collectRun h.env h.execOrder).2 = none) :
    (runHarness h o1 o2).1.filter Event.isStop = (onStopMeth h.env h.execOrder).1
    ∧ (runHarness h WaitOutcome.keyboardInterrupt o2).1
        = (collectStart h.env h.execOrder).1 ++ (onStopMeth h.env h.execOrder).1 := by
  cases hcs : collectStart h.env h.execOrder with
  | mk trS eS =>
    rw [hcs] at hs
    simp at hs
    subst hs
    cases hcr : collectRun h.env h.execOrder with
    | mk trR eR =>
      rw [hcr] at hr
      simp at hr
      subst hr
      cases hst : onStopMeth h.env h.execOrder with
      | mk tr2 e2 =>
        have hR := runMeth_no_raise h.env h.execOrder o2 trR hcr
        have hfilS : trS.filter Event.isStop = [] := by
          have h0 := collectStart_no_stop h.execOrder h.env
          rw [hcs] at h0
          exact h0
        have hfilR : trR.filter Event.isStop = [] := by
          have h0 := collectRun_no_stop h.execOrder h.env
          rw [hcr] at h0
          exact h0
        have hfil2 : tr2.filter Event.isStop = tr2 := by
          have h0 := onStopLoop_all_stop h.execOrder.reverse h.env
          have hst' : onStopLoop h.env h.execOrder.reverse = (tr2, e2) := hst
          rw [hst'] at h0
          exact h0
        constructor
        · cases o1 with
          | ok =>
            have hS := onStartMeth_no_raise h.env h.execOrder WaitOutcome.ok trS hcs
            simp only [runHarness, hS, hR, hst]
            simp [List.filter_append, hfilS, hfilR, hfil2]
          | keyboardInterrupt =>
            have hS := onStartMeth_no_raise h.env h.execOrder
              WaitOutcome.keyboardInterrupt trS hcs
            simp only [runHarness, hS, hst]
            simp [List.filter_append, hfilS, hfil2]
          | exception =>
            have hS := onStartMeth_no_raise h.env h.execOrder WaitOutcome.exception trS hcs
            simp only [runHarness, hS, hst]
            simp [List.filter_append, hfilS, hfil2]
        · have hS := onStartMeth_no_raise h.env h.execOrder
            WaitOutcome.keyboardInterrupt trS hcs
          simp only [runHarness, hS, hst, hcs]
          simp

/-- C2, witness: a component with async start and run hooks and a stop
hook — the full lifecycle's stop events are exactly the stop phase's,
and an interrupted start still reaches stop. -/
theorem claim2_witness :
    (runHarness hW2 WaitOutcome.ok WaitOutcome.ok).1.filter Event.isStop
      = (onStopMeth hW2.env hW2.execOrder).1
    ∧ (runHarness hW2 WaitOutcome.keyboardInterrupt WaitOutcome.ok).1
      = (collectStart hW2.env hW2.execOrder).1 ++ (onStopMeth hW2.env hW2.execOrder).1 :=
  claim2_amended hW2 WaitOutcome.ok WaitOutcome.ok (by rfl) (by rfl)

/-- C5, counterexample: the claim says stop hooks run exactly once per
declaring component on every invocation.  With a later component whose
start hook is synchronous, `InvalidLifecycleMethod` propagates out of
`run` during start collection and the earlier component's stop hook runs
zero times: the trace is empty although P5 declares a stop hook. -/
theorem claim5_counterexample :
    hasStopHook hC5.env ("P5") = true
    ∧ runHarness hC5 WaitOutcome.ok WaitOutcome.ok
      = ([], some (JabErr.invalidLifecycleMethod ("Q5"))) := ⟨rfl, rfl⟩

theorem filter_isStop_map (l : List String) :
    (l.map Event.stopCalled).filter Event.isStop = l.map Event.stopCalled := by
  induction l with
  | nil => rfl
  | cons a t ih =>
    simp only [List.map_cons, List.filter_cons]
    have : Event.isStop (Event.stopCalled a) = true := rfl
    rw [this, ih, if_pos rfl]

/-- C5, amended: whenever the start collection raises nothing and every
name in the execution order has an instance, an invocation whose start
barrier is cancelled before run begins invokes the stop hooks in exactly
the reverse of ExecutionOrder, exactly once per component that declares
one — the stop trace is literally the reversed order filtered to
stop-declaring components — and strictly serially, each hook awaited to
completion before the next (the loop embeds one `run_until_complete`
per hook).  When the start collection raises `InvalidLifecycleMethod`,
however, no stop hook runs at all. -/
theorem claim5_amended (h : Harness) (o2 : WaitOutcome)
    (hs : (collectStart h.env h.execOrder).2 = none)
    (henv : ∀ x ∈ h.execOrder, (lookupD h.env x).isSome = true) :
    (runHarness h WaitOutcome.keyboardInterrupt o2).1.filter Event.isStop
      = (h.execOrder.reverse.filter (fun x => hasStopHook h.env x)).map
          Event.stopCalled := by
  cases hcs : collectStart h.env h.execOrder with
  | mk trS eS =>
    rw [hcs] at hs
    simp at hs
    subst hs
    have hS := onStartMeth_no_raise h.env h.execOrder WaitOutcome.keyboardInterrupt trS hcs
    have hstop := onStopLoop_complete h.execOrder.reverse h.env
      (fun x hx => henv x (List.mem_reverse.mp hx))
    have hst : onStopMeth h.env h.execOrder
        = ((h.execOrder.reverse.filter (fun x => hasStopHook h.env x)).map
            Event.stopCalled, none) := hstop
    have hfilS : trS.filter Event.isStop = [] := by
      have h0 := collectStart_no_stop h.execOrder h.env
      rw [hcs] at h0
      exact h0
    simp only [runHarness, hS, hst]
    simp [List.filter_append, hfilS, filter_isStop_map]

/-- C5, witness: two stop-declaring components V5, U5 in that execution
order — after an interrupted start, the stop trace is exactly U5 then
V5. -/
theorem claim5_witness :
    (runHarness hW5 WaitOutcome.keyboardInterrupt WaitOutcome.ok).1.filter Event.isStop
      = (hW5.execOrder.reverse.filter (fun x => hasStopHook hW5.env x)).map
          Event.stopCalled :=
  claim5_amended hW5 WaitOutcome.ok (by rfl) (by decide)

/-- C10, witness: two classes both named Dup from modules mod1 and
mod2 — after providing both, the registry holds the second and a
concrete lookup for the first finds nothing. -/
theorem claim10_witness :
    lookupD (dictInsert (dictInsert [] clsDup1.name clsDup1) clsDup2.name clsDup2)
        clsDup1.name = some clsDup2
    ∧ searchConcrete (dictInsert (dictInsert [] clsDup1.name clsDup1)
        clsDup2.name clsDup2) clsDup1.module clsDup1.name = none :=
  claim10 [] clsDup1 clsDup2 rfl (by decide) (by intro q hq; simp at hq)

end Jab
